import Mathlib

/-!
Verification of the relaybot call-session turn coordinator (`src/server.js`)
against its natural-language specification.

JS strings are embedded as `List Char`; Node `Buffer`s as `List Nat`
(byte values); JS numbers used for byte counting as `Nat`; the IEEE
doubles used in the proportional sentence distribution as `ℚ` (exact
arithmetic); 16-bit linear audio samples as `Int`.
-/

set_option maxHeartbeats 1000000
set_option maxRecDepth 100000

namespace RelayBot

/-- JS strings are embedded as lists of characters. -/
abbrev Str := List Char

/-- Whitespace recognised by `String.prototype.trim` (the characters that
actually occur in this system's strings). -/
def isWS (c : Char) : Bool := c == ' ' || c == '\t' || c == '\n' || c == '\r'

/-- `s.trim()`. -/
def jsTrim (s : Str) : Str := ((s.dropWhile isWS).reverse.dropWhile isWS).reverse

/-- Sentence-terminal punctuation of the splitting regex: `.`, `!`, `?`. -/
def isPunct (c : Char) : Bool := c == '.' || c == '!' || c == '?'

/-- The global matches of the regex `[^.!?\n]+[.!?]?` over a string, in
order, computed by a single left-to-right scan; `acc` is the reversed body
of the match currently being built (empty when no match is in progress).
A maximal run of characters outside `.!?\n` forms a match body; a
terminal-punctuation character directly after a body is included in the
match; any break character outside a body cannot start a match and is
skipped. -/
def sentMatchesGo (acc : Str) : Str → List Str
  | [] => if acc.isEmpty then [] else [acc.reverse]
  | c :: rest =>
    if isPunct c then
      (if acc.isEmpty then [] else [(c :: acc).reverse]) ++ sentMatchesGo [] rest
    else if c = '\n' then
      (if acc.isEmpty then [] else [acc.reverse]) ++ sentMatchesGo [] rest
    else sentMatchesGo (c :: acc) rest

/-- `s.match(/[^.!?\n]+[.!?]?/g)` from `splitIntoSentences` (src/server.js). -/
def sentMatches (s : Str) : List Str := sentMatchesGo [] s

/-- `splitIntoSentences` (src/server.js line 424): trim, match the sentence
regex globally (falling back to the whole string when there is no match),
trim each piece, and keep the non-empty ones. -/
def splitIntoSentences (text : Str) : List Str :=
  let s := jsTrim text
  if s.isEmpty then []
  else
    let ms := sentMatches s
    let ms := if ms.isEmpty then [s] else ms
    (ms.map jsTrim).filter (fun x => !x.isEmpty)

/-- `String(text || '').replace(/\n+/g, ' ')` (src/server.js line 433): each
maximal run of newlines becomes a single space. The single left-to-right
scan keeps a flag saying whether the previous character belonged to a
newline run already replaced. -/
def replaceNewlinesGo (inRun : Bool) : Str → Str
  | [] => []
  | c :: rest =>
    if c = '\n' then (if inRun then [] else [' ']) ++ replaceNewlinesGo true rest
    else c :: replaceNewlinesGo false rest

/-- `String(text || '').replace(/\n+/g, ' ')`. -/
def replaceNewlines (s : Str) : Str := replaceNewlinesGo false s

/-- The sentence list `distributeByBytes` works over: the transcript with
newline runs collapsed to spaces, split into sentences. -/
def sentencesOf (text : Str) : List Str := splitIntoSentences (replaceNewlines text)

/-- `buckets.reduce((a,b) => a + (b?.bytes || 0), 0) || 1` (src/server.js
line 435). -/
def totalBytesOf (buckets : List Nat) : Nat := if buckets.sum = 0 then 1 else buckets.sum

/-- `buckets.map(b => ((b?.bytes || 0) / totalBytes) * sentences.length)`
(src/server.js line 436), with the double-precision arithmetic of the source
embedded as exact rational arithmetic. -/
def targetsOf (buckets : List Nat) (nSent : Nat) : List ℚ :=
  buckets.map (fun (b : Nat) => ((b : ℚ) / (totalBytesOf buckets : ℚ)) * (nSent : ℚ))

/-- `targets.map(x => Math.floor(x))` (src/server.js line 439); the targets
are non-negative so `Math.floor` lands in ℕ. -/
def baseCountsOf (targets : List ℚ) : List Nat := targets.map (fun x => (⌊x⌋).toNat)

/-- One insertion step of the stable sort on `(index, remainder)` pairs by
descending remainder (`sort((a, b) => b.r - a.r)`, src/server.js line 443):
the new element goes after every element with a ≥ remainder. -/
def insertByRemainder (x : Nat × ℚ) : List (Nat × ℚ) → List (Nat × ℚ)
  | [] => [x]
  | y :: ys => if x.2 ≤ y.2 then y :: insertByRemainder x ys else x :: y :: ys

/-- The stable descending sort by remainder. -/
def sortByRemainderDesc (l : List (Nat × ℚ)) : List (Nat × ℚ) :=
  l.foldl (fun acc x => insertByRemainder x acc) []

/-- `baseCounts[i]++` (src/server.js line 445). -/
def bumpAt (cs : List Nat) (i : Nat) : List Nat := cs.set i (cs.getD i 0 + 1)

/-- The largest-remainder increment loop (src/server.js lines 444-446): bump
the first `sentences.length - assigned` indices in descending-remainder
order (the loop stops either when `assigned` reaches the sentence count or
when the remainder list is exhausted; `List.take` caps at the length, which
reproduces the `k < remainders.length` bound). -/
def applyBumps (cs : List Nat) (idxs : List Nat) : List Nat := idxs.foldl bumpAt cs

/-- The per-bucket sentence counts produced inside `distributeByBytes`
(src/server.js lines 435-446): floor of the proportional target, plus one
for the largest remainders until the total reaches the sentence count. -/
def allocCounts (text : Str) (buckets : List Nat) : List Nat :=
  let sentences := sentencesOf text
  if sentences.isEmpty || buckets.isEmpty then buckets.map (fun _ => 0)
  else
    let targets := targetsOf buckets sentences.length
    let base := baseCountsOf targets
    let rems := List.enum (targets.map (fun x => x - (⌊x⌋ : ℚ)))
    let order := (sortByRemainderDesc rems).map Prod.fst
    applyBumps base (order.take (sentences.length - base.sum))

/-- `arr.join(' ')`. -/
def joinSpace (l : List Str) : Str := List.intercalate [' '] l

/-- The output loop of `distributeByBytes` (src/server.js lines 449-455):
`out.push(sentences.slice(cursor, cursor + n).join(' ').trim())`. -/
def buildOut (sentences : List Str) : List Nat → Nat → List Str
  | [], _ => []
  | n :: ns, cursor =>
    jsTrim (joinSpace ((sentences.drop cursor).take n)) :: buildOut sentences ns (cursor + n)

/-- The leftover append (src/server.js lines 457-459):
`out[out.length-1] += (out[out.length-1] ? ' ' : '') + sentences.slice(cursor).join(' ')`. -/
def appendLeftover (out : List Str) (extra : Str) : List Str :=
  match out with
  | [] => []
  | [last] => [if last.isEmpty then extra else last ++ ' ' :: extra]
  | x :: xs => x :: appendLeftover xs extra

/-- `distributeByBytes(text, buckets)` (src/server.js lines 432-461). -/
def distributeByBytes (text : Str) (buckets : List Nat) : List Str :=
  let sentences := sentencesOf text
  if sentences.isEmpty || buckets.isEmpty then buckets.map (fun _ => [])
  else
    let counts := allocCounts text buckets
    let out := buildOut sentences counts 0
    let cursor := counts.sum
    if cursor < sentences.length then appendLeftover out (joinSpace (sentences.drop cursor))
    else out

/-! ### Audio codec -/

/-- `ulawByteToLinearSample` (src/server.js lines 370-380). `~uVal & 0xff`
on a byte is `255 - uVal`; the shifts stay in ℕ and the signed arithmetic
is carried out in ℤ exactly as 32-bit JS arithmetic would (no overflow is
possible at these magnitudes). -/
def ulawByteToLinearSample (u : Nat) : Int :=
  let uVal := 255 - u % 256
  let sign := uVal &&& 0x80
  let exponent := (uVal &&& 0x70) >>> 4
  let mantissa := uVal &&& 0x0f
  let sample : Int := ((((mantissa <<< 4) + 0x08) <<< (exponent + 3) : Nat) : Int) - 0x84
  let sample := if sign ≠ 0 then -sample else sample
  max (-32768) (min 32767 sample)

/-- `ulawToPcm16` (src/server.js lines 381-385). -/
def ulawToPcm16 (buf : List Nat) : List Int := buf.map ulawByteToLinearSample

/-- The exponent search loop of the mu-law encoder
(src/unnamed/part_000 line 292): `for (let expMask = 0x4000;
(sample & expMask) === 0 && exponent > 0; expMask >>= 1) exponent--`. -/
def muExpLoop (s : Nat) : Nat → Nat → Nat
  | 0, _ => 0
  | e + 1, mask => if s &&& mask = 0 then muExpLoop s e (mask >>> 1) else e + 1

/-- The per-sample mu-law encoder: the loop body of
`pcm16leBase64ToMulawBase64` (src/unnamed/part_000 lines 282-299). For
samples in the 16-bit signed domain `(sample >> 8) & 0x80` is `0x80`
exactly when the sample is negative. `~x & 0xff` on the assembled 8-bit
value is `255 - x`. -/
def encodeMuLawSample (sample : Int) : Nat :=
  let sign : Nat := if sample < 0 then 0x80 else 0
  let mag : Int := if sample < 0 then -sample else sample
  let mag : Int := if mag > 32635 then 32635 else mag
  let s : Nat := (mag + 0x84).toNat
  let exponent := muExpLoop s 7 0x4000
  let shift := if exponent = 0 then 4 else exponent + 3
  let mantissa := (s >>> shift) &&& 0x0f
  255 - (sign ||| (exponent <<< 4) ||| mantissa)

/-! ### WAV container -/

/-- `Buffer.alloc(n)`: `n` zero bytes. -/
def bufAlloc (n : Nat) : List Nat := List.replicate n 0

/-- Write the byte list `bs` into `buf` starting at offset `off`
(the common core of the `Buffer.write*` calls; all writes in
`pcm16ToWav` are in bounds). -/
def writeBytesAt (buf : List Nat) (off : Nat) : List Nat → List Nat
  | [] => buf
  | b :: rest => writeBytesAt (buf.set off b) (off + 1) rest

/-- Little-endian bytes of `buf.writeUInt32LE`. -/
def u32le (v : Nat) : List Nat := [v % 256, v / 256 % 256, v / 65536 % 256, v / 16777216 % 256]

/-- Little-endian bytes of `buf.writeUInt16LE`. -/
def u16le (v : Nat) : List Nat := [v % 256, v / 256 % 256]

/-- Little-endian bytes of `buf.writeInt16LE`: two's-complement encoding of
an `int16` value. -/
def i16le (v : Int) : List Nat := u16le (v.emod 65536).toNat

/-- The sample loop of `pcm16ToWav` (src/server.js line 401):
`for (let i = 0; i < pcm16.length; i++) buf.writeInt16LE(pcm16[i], 44 + i*2)`. -/
def writeSamples (buf : List Nat) (off : Nat) : List Int → List Nat
  | [] => buf
  | s :: rest => writeSamples (writeBytesAt buf off (i16le s)) (off + 2) rest

/-- `pcm16ToWav(pcm16, rate)` (src/server.js lines 386-403). `"RIFF"`,
`"WAVEfmt "` and `"data"` are written as their ASCII bytes. (Node's
`writeUInt32LE` range-checks its argument instead of truncating; the
values written here are far below 2^32 for every call site.) -/
def pcm16ToWav (pcm16 : List Int) (rate : Nat) : List Nat :=
  let dataSize := pcm16.length * 2
  let buf := bufAlloc (44 + dataSize)
  let buf := writeBytesAt buf 0 [0x52, 0x49, 0x46, 0x46]
  let buf := writeBytesAt buf 4 (u32le (36 + dataSize))
  let buf := writeBytesAt buf 8 [0x57, 0x41, 0x56, 0x45, 0x66, 0x6D, 0x74, 0x20]
  let buf := writeBytesAt buf 16 (u32le 16)
  let buf := writeBytesAt buf 20 (u16le 1)
  let buf := writeBytesAt buf 22 (u16le 1)
  let buf := writeBytesAt buf 24 (u32le rate)
  let buf := writeBytesAt buf 28 (u32le (rate * 2))
  let buf := writeBytesAt buf 32 (u16le 2)
  let buf := writeBytesAt buf 34 (u16le 16)
  let buf := writeBytesAt buf 36 [0x64, 0x61, 0x74, 0x61]
  let buf := writeBytesAt buf 40 (u32le dataSize)
  writeSamples buf 44 pcm16

/-! ### Transcript post-processing helpers (src/server.js lines 405-422) -/

/-- The `\r\n?` → `\n` part of `normalizeTurnText`. -/
def normalizeCR : Str → Str
  | [] => []
  | '\r' :: '\n' :: rest => '\n' :: normalizeCR rest
  | '\r' :: rest => '\n' :: normalizeCR rest
  | c :: rest => c :: normalizeCR rest

/-- The `[ \t]+` → `' '` part of `normalizeTurnText`: each maximal run of
spaces/tabs becomes one space (same single-scan shape as
`replaceNewlinesGo`). -/
def collapseSpacesGo (inRun : Bool) : Str → Str
  | [] => []
  | c :: rest =>
    if c = ' ' ∨ c = '\t' then (if inRun then [] else [' ']) ++ collapseSpacesGo true rest
    else c :: collapseSpacesGo false rest

/-- `s.replace(/[ \t]+/g, " ")`. -/
def collapseSpaces (s : Str) : Str := collapseSpacesGo false s

/-- `normalizeTurnText(s)` (src/server.js lines 406-411); `String(s || "")`
turns an absent text into the empty string. -/
def normalizeTurnText (x : Option Str) : Str :=
  let s0 := match x with | none => [] | some v => v
  jsTrim (collapseSpaces (normalizeCR s0))

/-- The non-empty segments of `txt.split(/\n+/)` (empty segments are
produced by the JS split but removed by the following filter): a single
scan accumulating the current segment in reverse. -/
def splitSegsGo (acc : Str) : Str → List Str
  | [] => if acc.isEmpty then [] else [acc.reverse]
  | c :: rest =>
    if c = '\n' then (if acc.isEmpty then [] else [acc.reverse]) ++ splitSegsGo [] rest
    else splitSegsGo (c :: acc) rest

/-- The non-empty segments of `txt.split(/\n+/)`. -/
def splitSegs (s : Str) : List Str := splitSegsGo [] s

/-- `txt.split(/\n+/).map(x => x.trim()).filter(Boolean)`. -/
def splitLines (s : Str) : List Str := ((splitSegs s).map jsTrim).filter (fun x => !x.isEmpty)

/-! ### Session model (the `handleTwilio` closure, src/server.js lines 93-337)

The mutable state of one call session is a `Sess`; the inbound
transport/engine callbacks are the constructors of `Ev`.  Outbound
engine commands (`oai.send`) are logged in `oaiSent`, outbound media in
`wsOut` and chat notifications (`sendGroupMe`) in `notifications`.
The two network oracles a `stop` consults (the batch transcription
result and the summary completion) are a `Config`. -/

inductive Role
  | caller
  | assistant
deriving DecidableEq, Repr

structure Turn where
  role : Role
  text : Option Str
deriving DecidableEq, Repr

inductive OaiCmd
  | sessionUpdate
  | responseCreate
  | appendAudio (payload : List Nat)
  | commit
  | closeConn
deriving DecidableEq, Repr

structure Sess where
  prompt : Str
  streamSid : Option Str
  started : Bool
  turns : List Turn
  callerTurns : List Nat
  assistantTranscript : Str
  ulawChunks : List (List Nat)
  hasBufferedAudio : Bool
  oai : Bool
  oaiReady : Bool
  commitTimer : Option Nat
  currentCallerBytes : Nat
  currentAssistantText : Str
  assistantTurnOpen : Bool
  oaiSent : List OaiCmd
  wsOut : List Str
  notifications : List Str
  wsClosed : Bool
deriving DecidableEq, Repr

structure Config where
  whisperText : Str
  summaryReply : Str
deriving DecidableEq, Repr

def DEBOUNCE_MS : Nat := 500

/-- `openAssistantTurn` (src/server.js lines 113-118). -/
def openAssistantTurn (s : Sess) : Sess :=
  if s.assistantTurnOpen then s
  else { s with assistantTurnOpen := true,
                currentAssistantText := [],
                turns := s.turns ++ [⟨Role.assistant, none⟩] }

/-- The JS truthiness test `!t.text`: absent or empty. -/
def isFalsyText : Option Str → Bool
  | none => true
  | some x => x.isEmpty

/-- `closeAssistantTurn` (src/server.js lines 119-124): resolve the first
assistant turn whose text is still falsy to the trimmed accumulated text. -/
def closeAssistantTurn (s : Sess) : Sess :=
  if !s.assistantTurnOpen then s
  else
    let s1 := { s with assistantTurnOpen := false }
    match s1.turns.findIdx? (fun tn => decide (tn.role = Role.assistant) && isFalsyText tn.text) with
    | some idx =>
        { s1 with turns := s1.turns.set idx ⟨Role.assistant, some (jsTrim s1.currentAssistantText)⟩ }
    | none => s1

/-- `ensureOpenAI` (src/server.js lines 126-133): create the engine
connection once; its `open` callback is the separate event `Ev.oaiOpen`. -/
def ensureOpenAI (s : Sess) : Sess := if s.oai then s else { s with oai := true }

/-- The `commitTimer` callback (src/server.js lines 225-247): commit the
buffered audio if any, close a finished assistant turn, materialize a
caller turn from the accumulated bytes if non-zero, and request a
response. -/
def fireTimer (s : Sess) : Sess :=
  let s := if s.hasBufferedAudio then
      { s with oaiSent := s.oaiSent ++ [OaiCmd.commit], hasBufferedAudio := false }
    else s
  let s := closeAssistantTurn s
  let s := if 0 < s.currentCallerBytes then
      { s with turns := s.turns ++ [⟨Role.caller, none⟩],
               callerTurns := s.callerTurns ++ [s.currentCallerBytes],
               currentCallerBytes := 0 }
    else s
  { s with oaiSent := s.oaiSent ++ [OaiCmd.responseCreate] }

/-- Inbound events of one session: the Twilio transport messages
(`start`/`media`/`stop`) and the engine socket callbacks (`open`,
`response.created`, audio/transcript deltas, terminal events). -/
inductive Ev
  | start (sid : Option Str) (promptParam : Option Str)
  | media (payload : List Nat)
  | stop
  | oaiOpen
  | respCreated
  | transcriptDelta (d : Str)
  | audioDelta (d : Str)
  | completed
  | respError
deriving DecidableEq, Repr

/-- `${t.role === "assistant" ? "Assistant" : "Caller"}: ${t.text}`. -/
def labelLine (t : Role × Str) : Str :=
  (if t.1 = Role.assistant then "Assistant: ".toList else "Caller: ".toList) ++ t.2

/-- The chronological-entry loop of the `stop` handler (src/server.js lines
292-303): assistant turns are exploded by newlines, caller turns take the
next proportional text, normalized and split by newlines. -/
def buildChron : List Turn → List Str → List (Role × Str)
  | [], _ => []
  | tn :: rest, callerTexts =>
    match tn.role with
    | Role.assistant =>
        (splitLines (normalizeTurnText tn.text)).map (fun l => (Role.assistant, l))
          ++ buildChron rest callerTexts
    | Role.caller =>
        (splitLines (normalizeTurnText callerTexts.head?)).map (fun l => (Role.caller, l))
          ++ buildChron rest (callerTexts.drop 1)

/-- The state mutations at the top of the `stop` handler (src/server.js
lines 257-268): flush any open assistant turn, attribute remaining caller
bytes as a final caller turn, close the engine connection. -/
def stopMaterialize (s : Sess) : Sess :=
  let s := closeAssistantTurn s
  let s := if 0 < s.currentCallerBytes then
      { s with turns := s.turns ++ [⟨Role.caller, none⟩],
               callerTurns := s.callerTurns ++ [s.currentCallerBytes],
               currentCallerBytes := 0 }
    else s
  if s.oai then { s with oaiSent := s.oaiSent ++ [OaiCmd.closeConn] } else s

/-- The chronological entries computed by the `stop` handler from the
(materialized) session state: the batch transcript (the `Config` oracle,
trimmed, empty when no audio was captured) distributed over the caller
turns by bytes, interleaved with the assistant turns. -/
def stopChron (cfg : Config) (s : Sess) : List (Role × Str) :=
  let ulaw := s.ulawChunks.flatten
  let callerTranscript := if ulaw.isEmpty then [] else jsTrim cfg.whisperText
  let callerTexts := distributeByBytes callerTranscript s.callerTurns
  buildChron s.turns callerTexts

/-- The transcript notification a `stop` emits. -/
def stopTranscriptMsg (cfg : Config) (s : Sess) : Str :=
  "🗣️ Transcript\n".toList
    ++ List.intercalate ['\n'] ((stopChron cfg (stopMaterialize s)).map labelLine)

/-- The summary notifications a `stop` emits: one when the labeled
transcript is longer than 30 characters and the summary oracle returns
non-empty text, none otherwise. -/
def stopSummaryMsgs (cfg : Config) (s : Sess) : List Str :=
  let labeled := List.intercalate ['\n'] ((stopChron cfg (stopMaterialize s)).map labelLine)
  if 30 < (jsTrim labeled).length then
    let summary := jsTrim cfg.summaryReply
    if !summary.isEmpty then ["📝 Summary: ".toList ++ summary] else []
  else []

/-- The `stop` handler (src/server.js lines 257-335). -/
def stepStop (cfg : Config) (s : Sess) : Sess :=
  let s1 := stopMaterialize s
  let labeled := List.intercalate ['\n'] ((stopChron cfg s1).map labelLine)
  let s2 := { s1 with notifications := s1.notifications ++ ["🗣️ Transcript\n".toList ++ labeled] }
  let base := jsTrim labeled
  let s3 := if 30 < base.length then
      let summary := jsTrim cfg.summaryReply
      if !summary.isEmpty then
        { s2 with notifications := s2.notifications ++ ["📝 Summary: ".toList ++ summary] }
      else s2
    else s2
  { s3 with wsClosed := true }

/-- One inbound event at time `t` (the `ws.on("message")` dispatcher,
src/server.js lines 205-336, plus the engine message handler, lines
159-201). -/
def stepEv (cfg : Config) (t : Nat) (s : Sess) : Ev → Sess
  | .start sid pp =>
    if !s.started then
      let s := { s with started := true, streamSid := sid }
      let s := match pp with
        | some p => if p.isEmpty then s else { s with prompt := jsTrim p }
        | none => s
      ensureOpenAI s
    else s
  | .media payload =>
    if s.streamSid.isSome then
      let s := if s.oai && s.oaiReady then
          { s with oaiSent := s.oaiSent ++ [OaiCmd.appendAudio payload],
                   hasBufferedAudio := true,
                   commitTimer := some (t + DEBOUNCE_MS) }
        else s
      { s with ulawChunks := s.ulawChunks ++ [payload],
               currentCallerBytes := s.currentCallerBytes + payload.length }
    else s
  | .stop => stepStop cfg s
  | .oaiOpen =>
    let s := { s with oaiReady := true, oaiSent := s.oaiSent ++ [OaiCmd.sessionUpdate] }
    let s := openAssistantTurn s
    { s with oaiSent := s.oaiSent ++ [OaiCmd.responseCreate] }
  | .respCreated =>
    let s := if s.hasBufferedAudio then
        let s1 := { s with oaiSent := s.oaiSent ++ [OaiCmd.commit], hasBufferedAudio := false }
        if 0 < s1.currentCallerBytes then
          { s1 with turns := s1.turns ++ [⟨Role.caller, none⟩],
                    callerTurns := s1.callerTurns ++ [s1.currentCallerBytes],
                    currentCallerBytes := 0 }
        else s1
      else s
    openAssistantTurn s
  | .transcriptDelta d =>
    if !d.isEmpty then
      let s := { s with assistantTranscript := s.assistantTranscript ++ d }
      if s.assistantTurnOpen then { s with currentAssistantText := s.currentAssistantText ++ d }
      else s
    else s
  | .audioDelta d =>
    if !d.isEmpty && s.streamSid.isSome then
      if !s.wsClosed then { s with wsOut := s.wsOut ++ [d] } else s
    else s
  | .completed => closeAssistantTurn s
  | .respError => closeAssistantTurn s

/-- Fire the pending debounce timer when its deadline `d` has been reached
(`setTimeout` semantics: a timer armed at the last frame fires as soon as
the silence gap reaches `DEBOUNCE_MS`). -/
def maybeFire (s : Sess) (t : Nat) : Sess :=
  match s.commitTimer with
  | some d => if d ≤ t then fireTimer { s with commitTimer := none } else s
  | none => s

/-- Run a time-stamped event trace: before each event the timer is fired
if its deadline has passed. -/
def runSession (cfg : Config) : Sess → List (Nat × Ev) → Sess
  | s, [] => s
  | s, (t, e) :: rest => runSession cfg (stepEv cfg t (maybeFire s t) e) rest

/-- Run a trace and then let the clock advance to `tEnd`, firing any
pending debounce timer whose deadline has been reached. -/
def runEnd (cfg : Config) (s : Sess) (evs : List (Nat × Ev)) (tEnd : Nat) : Sess :=
  maybeFire (runSession cfg s evs) tEnd

/-- The fresh closure state of `handleTwilio` (src/server.js lines 94-111). -/
def initSess : Sess :=
  { prompt := "test".toList, streamSid := none, started := false, turns := [],
    callerTurns := [], assistantTranscript := [], ulawChunks := [],
    hasBufferedAudio := false, oai := false, oaiReady := false,
    commitTimer := none, currentCallerBytes := 0, currentAssistantText := [],
    assistantTurnOpen := false, oaiSent := [], wsOut := [], notifications := [],
    wsClosed := false }

/-- A trivial oracle configuration (no transcription text, no summary). -/
def cfg0 : Config := ⟨[], []⟩

/-- A concrete stream identifier. -/
def sid0 : Str := "MZ123".toList

/-- The canonical state of a session that has processed its `start` event
and whose engine socket has opened. -/
def readySess : Sess :=
  runSession cfg0 initSess [(0, Ev.start (some sid0) none), (0, Ev.oaiOpen)]

/-! ### Field-preservation lemmas for the turn helpers -/

/-- Occurrences of an engine command in a send log. -/
def countCmd (l : List OaiCmd) (c : OaiCmd) : Nat := l.countP (fun x => decide (x = c))

theorem countCmd_append (l1 l2 : List OaiCmd) (c : OaiCmd) :
    countCmd (l1 ++ l2) c = countCmd l1 c + countCmd l2 c := by
  simp [countCmd, List.countP_append]

@[simp] theorem closeAT_oaiSent (s : Sess) : (closeAssistantTurn s).oaiSent = s.oaiSent := by
  unfold closeAssistantTurn
  split
  · rfl
  · dsimp only
    split <;> rfl

@[simp] theorem closeAT_callerTurns (s : Sess) :
    (closeAssistantTurn s).callerTurns = s.callerTurns := by
  unfold closeAssistantTurn
  split
  · rfl
  · dsimp only
    split <;> rfl

@[simp] theorem closeAT_currentCallerBytes (s : Sess) :
    (closeAssistantTurn s).currentCallerBytes = s.currentCallerBytes := by
  unfold closeAssistantTurn
  split
  · rfl
  · dsimp only
    split <;> rfl

@[simp] theorem closeAT_hasBufferedAudio (s : Sess) :
    (closeAssistantTurn s).hasBufferedAudio = s.hasBufferedAudio := by
  unfold closeAssistantTurn
  split
  · rfl
  · dsimp only
    split <;> rfl

@[simp] theorem closeAT_commitTimer (s : Sess) :
    (closeAssistantTurn s).commitTimer = s.commitTimer := by
  unfold closeAssistantTurn
  split
  · rfl
  · dsimp only
    split <;> rfl

@[simp] theorem closeAT_notifications (s : Sess) :
    (closeAssistantTurn s).notifications = s.notifications := by
  unfold closeAssistantTurn
  split
  · rfl
  · dsimp only
    split <;> rfl

@[simp] theorem closeAT_ulawChunks (s : Sess) :
    (closeAssistantTurn s).ulawChunks = s.ulawChunks := by
  unfold closeAssistantTurn
  split
  · rfl
  · dsimp only
    split <;> rfl

@[simp] theorem closeAT_oai (s : Sess) : (closeAssistantTurn s).oai = s.oai := by
  unfold closeAssistantTurn
  split
  · rfl
  · dsimp only
    split <;> rfl

@[simp] theorem closeAT_oaiReady (s : Sess) : (closeAssistantTurn s).oaiReady = s.oaiReady := by
  unfold closeAssistantTurn
  split
  · rfl
  · dsimp only
    split <;> rfl

@[simp] theorem closeAT_streamSid (s : Sess) : (closeAssistantTurn s).streamSid = s.streamSid := by
  unfold closeAssistantTurn
  split
  · rfl
  · dsimp only
    split <;> rfl

@[simp] theorem openAT_assistantTurnOpen (s : Sess) :
    (openAssistantTurn s).assistantTurnOpen = true := by
  unfold openAssistantTurn
  split <;> simp_all

@[simp] theorem openAT_oaiSent (s : Sess) : (openAssistantTurn s).oaiSent = s.oaiSent := by
  unfold openAssistantTurn
  split <;> rfl

@[simp] theorem openAT_callerTurns (s : Sess) :
    (openAssistantTurn s).callerTurns = s.callerTurns := by
  unfold openAssistantTurn
  split <;> rfl

/-- Everything `fireTimer` (the debounce-timer callback) does to the fields
relevant to turn boundaries: the buffered-audio commit, the caller-turn
materialization from the accumulated byte counter, and the unconditional
response request. -/
theorem fireTimer_spec (s : Sess) :
    (fireTimer s).callerTurns
      = s.callerTurns ++ (if 0 < s.currentCallerBytes then [s.currentCallerBytes] else []) ∧
    (fireTimer s).currentCallerBytes = 0 ∧
    (fireTimer s).oaiSent
      = s.oaiSent ++ (if s.hasBufferedAudio then [OaiCmd.commit] else [])
        ++ [OaiCmd.responseCreate] ∧
    (fireTimer s).hasBufferedAudio = false ∧
    (fireTimer s).commitTimer = s.commitTimer ∧
    (fireTimer s).oai = s.oai ∧
    (fireTimer s).oaiReady = s.oaiReady ∧
    (fireTimer s).streamSid = s.streamSid ∧
    (fireTimer s).ulawChunks = s.ulawChunks ∧
    (fireTimer s).notifications = s.notifications := by
  by_cases hb : s.hasBufferedAudio <;>
    by_cases hc : 0 < s.currentCallerBytes <;>
      simp [fireTimer, hb, hc] <;> omega

/-! ### C5 -/

/-- C5 (code bug): the mu-law round trip fails on byte `0xFF`: the decoder
`ulawByteToLinearSample` maps it to the linear sample `-68` (a true G.711
decoder maps `0xFF` to `0`), and re-encoding that sample with the
per-sample mu-law encoder yields `0x73 = 115`, not `0xFF = 255`.  In fact
only the bytes `0x00` and `0x80` survive the round trip: 254 of the 256
byte values are changed. -/
theorem ulaw_roundtrip_fails :
    ulawByteToLinearSample 255 = -68 ∧
    encodeMuLawSample (ulawByteToLinearSample 255) = 115 ∧
    ((List.range 256).filter
        (fun b => decide (encodeMuLawSample (ulawByteToLinearSample b) = b))) = [0, 128] := by
  decide

/-! ### C8 -/

/-- C8: the `start` handler is idempotent — a `start` event processed while
the session is already started leaves the whole session state unchanged
(no prompt reset, no new engine connection, no reinitialization) and sends
nothing. -/
theorem start_idempotent (cfg : Config) (t : Nat) (s : Sess) (sid : Option Str)
    (pp : Option Str) (h : s.started = true) :
    stepEv cfg t s (Ev.start sid pp) = s := by
  simp [stepEv, h]

theorem start_idempotent_witness :
    (runSession cfg0 initSess [(0, Ev.start (some sid0) (some "hello".toList))]).started = true ∧
    stepEv cfg0 5 (runSession cfg0 initSess [(0, Ev.start (some sid0) (some "hello".toList))])
        (Ev.start (some "other".toList) (some "changed".toList))
      = runSession cfg0 initSess [(0, Ev.start (some sid0) (some "hello".toList))] :=
  ⟨by decide, start_idempotent cfg0 5 _ _ _ (by decide)⟩

/-! ### C4 -/

/-- C4 (counterexample): the engine opens (which opens an assistant turn),
signals `response.created`, streams delta `"A"`, signals a second
`response.created` while the first response's turn is still open, and
streams delta `"B"`; on the terminal event the session holds a single
assistant turn with text `"AB"`.  The open response was not force-closed
when the new response started, so the deltas of two distinct responses
merged into one turn's text — contradicting the claim. -/
theorem respCreated_merge_counterexample :
    (runSession cfg0 initSess
      [(0, Ev.start (some sid0) none), (1, Ev.oaiOpen), (2, Ev.respCreated),
       (3, Ev.transcriptDelta "A".toList), (4, Ev.respCreated),
       (5, Ev.transcriptDelta "B".toList), (6, Ev.completed)]).turns
    = [⟨Role.assistant, some "AB".toList⟩] := by decide

/-- C4 (amended): on `response.created` the handler only *ensures* an
assistant turn is open: if none is open a fresh assistant turn is appended;
if one is already open it is left open, its accumulated text is neither
flushed nor reset, and no new turn is created — so the text deltas of the
new response accumulate into the still-open turn.  (The handler also
force-commits buffered caller audio, materializing a caller turn when
bytes have accumulated.) -/
theorem respCreated_keeps_open_turn (cfg : Config) (t : Nat) (s : Sess) :
    (stepEv cfg t s Ev.respCreated).assistantTurnOpen = true ∧
    (stepEv cfg t s Ev.respCreated).currentAssistantText
      = cond s.assistantTurnOpen s.currentAssistantText [] ∧
    (stepEv cfg t s Ev.respCreated).turns
      = s.turns
        ++ cond (s.hasBufferedAudio && decide (0 < s.currentCallerBytes)) [⟨Role.caller, none⟩] []
        ++ cond s.assistantTurnOpen [] [⟨Role.assistant, none⟩] := by
  by_cases hb : s.hasBufferedAudio <;>
    by_cases hc : 0 < s.currentCallerBytes <;>
      by_cases ho : s.assistantTurnOpen <;>
        simp [stepEv, openAssistantTurn, hb, hc, ho]

/-! ### C3 -/

/-- A trace with two separated caller bursts and no terminal engine event. -/
def c3trace : List (Nat × Ev) :=
  [(0, Ev.start (some sid0) none), (1, Ev.oaiOpen), (2, Ev.media [7]), (600, Ev.media [8])]

/-- C3 (counterexample): on a trace containing no `response.completed` and
no `response.error` event at all, the session nevertheless sends three
`response.create` commands (one on engine open and one per debounce fire) —
so a second and a third response request are issued while the previous
response is still outstanding, and no single-flight flag prevents it. -/
theorem no_single_flight_counterexample :
    countCmd (runEnd cfg0 initSess c3trace 1200).oaiSent OaiCmd.responseCreate = 3 ∧
    ∀ te ∈ c3trace, te.2 ≠ Ev.completed ∧ te.2 ≠ Ev.respError := by
  decide

/-- C3 (amended): the session keeps no single-flight flag: every debounce
fire unconditionally appends exactly one `response.create` to the engine
send log — regardless of any outstanding response — together with exactly
one commit when audio is buffered. -/
theorem fire_always_requests_response (s : Sess) :
    countCmd (fireTimer s).oaiSent OaiCmd.responseCreate
      = countCmd s.oaiSent OaiCmd.responseCreate + 1 ∧
    countCmd (fireTimer s).oaiSent OaiCmd.commit
      = countCmd s.oaiSent OaiCmd.commit + cond s.hasBufferedAudio 1 0 := by
  obtain ⟨-, -, h3, -⟩ := fireTimer_spec s
  rw [h3, countCmd_append, countCmd_append, countCmd_append, countCmd_append]
  by_cases hb : s.hasBufferedAudio <;> simp [hb, countCmd]

/-! ### C2 -/

/-- Timer-state lemmas for the event driver. -/
theorem maybeFire_none {s : Sess} (h : s.commitTimer = none) (t : Nat) : maybeFire s t = s := by
  unfold maybeFire
  rw [h]

theorem maybeFire_not_yet {s : Sess} {d : Nat} (h : s.commitTimer = some d) {t : Nat}
    (ht : t < d) : maybeFire s t = s := by
  unfold maybeFire
  rw [h]
  simp [Nat.not_le.mpr ht]

theorem maybeFire_fire {s : Sess} {d : Nat} (h : s.commitTimer = some d) {t : Nat}
    (ht : d ≤ t) : maybeFire s t = fireTimer { s with commitTimer := none } := by
  unfold maybeFire
  rw [h]
  simp [ht]

/-- A `media` frame processed while the engine socket is up: append the
audio, arm the debounce timer at `t + DEBOUNCE_MS`, and accumulate the raw
bytes. -/
theorem stepEv_media_ready (cfg : Config) (t : Nat) (s : Sess) (payload : List Nat)
    (hsid : s.streamSid.isSome = true) (hoai : s.oai = true) (hready : s.oaiReady = true) :
    stepEv cfg t s (Ev.media payload)
      = { s with oaiSent := s.oaiSent ++ [OaiCmd.appendAudio payload],
                 hasBufferedAudio := true,
                 commitTimer := some (t + DEBOUNCE_MS),
                 ulawChunks := s.ulawChunks ++ [payload],
                 currentCallerBytes := s.currentCallerBytes + payload.length } := by
  simp [stepEv, hsid, hoai, hready]

/-- C2 (counterexample): a single 160-byte frame (0.02 s of 8 kHz mu-law —
far below the representative 0.25 s ≈ 2000-byte minimum-duration
threshold) is materialized as its own caller turn when the debounce fires:
a sub-threshold burst is *not* held back and folded into the next turn. -/
theorem tiny_burst_materialized :
    (runEnd cfg0 readySess [(100, Ev.media (List.replicate 160 7))] 600).callerTurns = [160] ∧
    160 < 2000 := by
  decide

/-- C2 (amended): a debounce fire materializes a caller turn exactly when
at least one byte has accumulated since the last materialized turn (the
threshold is one byte, not a 0.25 s minimum), and the turn carries the
whole accumulated byte count; consequently two bursts separated by a gap
shorter than the debounce interval are coalesced into a single caller turn
spanning both. -/
theorem caller_turn_materialization :
    (∀ s : Sess,
      (fireTimer s).callerTurns
        = s.callerTurns ++ (if 0 < s.currentCallerBytes then [s.currentCallerBytes] else []) ∧
      (fireTimer s).currentCallerBytes = 0) ∧
    (∀ (p q : List Nat) (t1 t2 tEnd : Nat),
      t1 ≤ t2 → t2 < t1 + DEBOUNCE_MS → t2 + DEBOUNCE_MS ≤ tEnd →
      (runEnd cfg0 readySess [(t1, Ev.media p), (t2, Ev.media q)] tEnd).callerTurns
        = if 0 < p.length + q.length then [p.length + q.length] else []) := by
  constructor
  · intro s
    obtain ⟨h1, h2, -⟩ := fireTimer_spec s
    exact ⟨h1, h2⟩
  · intro p q t1 t2 tEnd h12 hlt hend
    simp only [runEnd, runSession]
    rw [maybeFire_none (by decide) t1,
        stepEv_media_ready cfg0 t1 readySess p (by decide) (by decide) (by decide)]
    rw [maybeFire_not_yet rfl hlt]
    have e2 := stepEv_media_ready cfg0 t2
      { readySess with
          oaiSent := readySess.oaiSent ++ [OaiCmd.appendAudio p],
          hasBufferedAudio := true,
          commitTimer := some (t1 + DEBOUNCE_MS),
          ulawChunks := readySess.ulawChunks ++ [p],
          currentCallerBytes := readySess.currentCallerBytes + p.length }
      q rfl rfl rfl
    rw [e2]
    rw [maybeFire_fire rfl hend]
    obtain ⟨h1, -⟩ := fireTimer_spec
      { readySess with
          oaiSent := readySess.oaiSent ++ [OaiCmd.appendAudio p] ++ [OaiCmd.appendAudio q],
          hasBufferedAudio := true,
          commitTimer := none,
          ulawChunks := readySess.ulawChunks ++ [p] ++ [q],
          currentCallerBytes := readySess.currentCallerBytes + p.length + q.length }
    simp only at h1 ⊢
    rw [h1]
    simp [readySess, runSession, stepEv, initSess, cfg0, maybeFire, openAssistantTurn,
      ensureOpenAI, Nat.add_assoc]

theorem caller_turn_materialization_witness :
    (runEnd cfg0 readySess [(10, Ev.media [1, 2]), (300, Ev.media [3])] 900).callerTurns
      = [3] := by
  simpa using caller_turn_materialization.2 [1, 2] [3] 10 300 900
    (by decide) (by decide) (by decide)

/-! ### C1 -/

/-- The media events of a list of timed frames. -/
def mediaEvs (frames : List (Nat × List Nat)) : List (Nat × Ev) :=
  frames.map (fun f => (f.1, Ev.media f.2))

/-- Frame times are nondecreasing starting from `tp`, and every silence gap
between consecutive frames is strictly shorter than the debounce interval. -/
def chainFromB (tp : Nat) : List (Nat × List Nat) → Bool
  | [] => true
  | (t, _) :: rest => (decide (tp ≤ t) && decide (t < tp + DEBOUNCE_MS)) && chainFromB t rest

/-- The arrival time of the last frame (`tp` when there is none). -/
def lastTimeD (tp : Nat) (frames : List (Nat × List Nat)) : Nat :=
  (frames.map Prod.fst).getLastD tp

/-- Total payload bytes of a frame list. -/
def sumLens (frames : List (Nat × List Nat)) : Nat :=
  (frames.map (fun f => f.2.length)).sum

theorem countCmd_appendAudio_map (l : List (Nat × List Nat)) (c : OaiCmd)
    (hc : ∀ pl, OaiCmd.appendAudio pl ≠ c) :
    countCmd (l.map (fun f => OaiCmd.appendAudio f.2)) c = 0 := by
  rw [countCmd, List.countP_eq_zero]
  intro x hx
  obtain ⟨f, -, rfl⟩ := List.mem_map.mp hx
  simp [hc]

/-- Running a gap-chained sequence of media frames from a state whose
debounce timer was armed at `tl` never fires the timer: no caller turn is
materialized, only `append` commands are sent, the byte counter
accumulates, and the timer ends armed at the last frame's time. -/
theorem run_media_chain (cfg : Config) :
    ∀ (rest : List (Nat × List Nat)) (s : Sess) (tl : Nat),
    s.oai = true → s.oaiReady = true → s.streamSid.isSome = true →
    s.hasBufferedAudio = true →
    s.commitTimer = some (tl + DEBOUNCE_MS) →
    chainFromB tl rest = true →
    (runSession cfg s (mediaEvs rest)).callerTurns = s.callerTurns ∧
    (runSession cfg s (mediaEvs rest)).oaiSent
      = s.oaiSent ++ rest.map (fun f => OaiCmd.appendAudio f.2) ∧
    (runSession cfg s (mediaEvs rest)).currentCallerBytes
      = s.currentCallerBytes + sumLens rest ∧
    (runSession cfg s (mediaEvs rest)).commitTimer
      = some (lastTimeD tl rest + DEBOUNCE_MS) ∧
    (runSession cfg s (mediaEvs rest)).hasBufferedAudio = true ∧
    (runSession cfg s (mediaEvs rest)).turns = s.turns := by
  intro rest
  induction rest with
  | nil =>
    intro s tl h1 h2 h3 h4 h5 h6
    simp [mediaEvs, runSession, sumLens, lastTimeD, h4, h5]
  | cons f rest ih =>
    intro s tl h1 h2 h3 h4 h5 h6
    obtain ⟨t, p⟩ := f
    simp only [chainFromB, Bool.and_eq_true, decide_eq_true_eq] at h6
    obtain ⟨⟨hle, hlt⟩, hchain⟩ := h6
    simp only [mediaEvs, List.map_cons, runSession]
    rw [maybeFire_not_yet h5 hlt, stepEv_media_ready cfg t s p h3 h1 h2]
    have hih := ih
      { s with oaiSent := s.oaiSent ++ [OaiCmd.appendAudio p],
               hasBufferedAudio := true,
               commitTimer := some (t + DEBOUNCE_MS),
               ulawChunks := s.ulawChunks ++ [p],
               currentCallerBytes := s.currentCallerBytes + p.length }
      t h1 h2 h3 rfl rfl hchain
    obtain ⟨c1, c2, c3, c4, c5, c6⟩ := hih
    rw [mediaEvs] at c1 c2 c3 c4 c5 c6
    refine ⟨?_, ?_, ?_, ?_, ?_, ?_⟩
    · rw [c1]
    · rw [c2]
      simp [List.append_assoc]
    · rw [c3]
      simp [sumLens]
      omega
    · rw [c4]
      unfold lastTimeD
      rw [List.map_cons, List.getLastD_cons]
    · exact c5
    · rw [c6]

/-- C1: while media frames keep arriving with silence gaps strictly shorter
than `DEBOUNCE_MS`, no caller turn boundary is materialized and nothing
beyond the audio appends is sent (no commit, and no response request
beyond the single one issued when the engine opened); as soon as one
silence gap reaches `DEBOUNCE_MS`, exactly one boundary fires: exactly one
commit, exactly one additional response request, and exactly one caller
turn carrying all accumulated bytes. -/
theorem debounce_turn_boundary (t0 : Nat) (p0 : List Nat) (rest : List (Nat × List Nat))
    (hchain : chainFromB t0 rest = true)
    (hbytes : 0 < p0.length + sumLens rest)
    (tEnd : Nat) (hEnd : lastTimeD t0 rest + DEBOUNCE_MS ≤ tEnd) :
    (runSession cfg0 readySess (mediaEvs ((t0, p0) :: rest))).callerTurns = [] ∧
    countCmd (runSession cfg0 readySess (mediaEvs ((t0, p0) :: rest))).oaiSent
      OaiCmd.commit = 0 ∧
    countCmd (runSession cfg0 readySess (mediaEvs ((t0, p0) :: rest))).oaiSent
      OaiCmd.responseCreate = 1 ∧
    (runEnd cfg0 readySess (mediaEvs ((t0, p0) :: rest)) tEnd).callerTurns
      = [p0.length + sumLens rest] ∧
    countCmd (runEnd cfg0 readySess (mediaEvs ((t0, p0) :: rest)) tEnd).oaiSent
      OaiCmd.commit = 1 ∧
    countCmd (runEnd cfg0 readySess (mediaEvs ((t0, p0) :: rest)) tEnd).oaiSent
      OaiCmd.responseCreate = 2 := by
  simp only [mediaEvs, List.map_cons, runSession, runEnd]
  rw [maybeFire_none (by decide) t0,
      stepEv_media_ready cfg0 t0 readySess p0 (by decide) (by decide) (by decide)]
  have hrmc := run_media_chain cfg0 rest
    { readySess with
        oaiSent := readySess.oaiSent ++ [OaiCmd.appendAudio p0],
        hasBufferedAudio := true,
        commitTimer := some (t0 + DEBOUNCE_MS),
        ulawChunks := readySess.ulawChunks ++ [p0],
        currentCallerBytes := readySess.currentCallerBytes + p0.length }
    t0 rfl rfl rfl rfl rfl hchain
  obtain ⟨c1, c2, c3, c4, c5, c6⟩ := hrmc
  rw [mediaEvs] at c1 c2 c3 c4 c5 c6
  have hcommit0 : countCmd (readySess.oaiSent ++ [OaiCmd.appendAudio p0]) OaiCmd.commit = 0 := by
    rw [countCmd_append]
    rw [show countCmd readySess.oaiSent OaiCmd.commit = 0 from by decide]
    simp [countCmd]
  have hresp1 : countCmd (readySess.oaiSent ++ [OaiCmd.appendAudio p0])
      OaiCmd.responseCreate = 1 := by
    rw [countCmd_append]
    rw [show countCmd readySess.oaiSent OaiCmd.responseCreate = 1 from by decide]
    simp [countCmd]
  have hmid2 : countCmd (runSession cfg0
      { readySess with
          oaiSent := readySess.oaiSent ++ [OaiCmd.appendAudio p0],
          hasBufferedAudio := true,
          commitTimer := some (t0 + DEBOUNCE_MS),
          ulawChunks := readySess.ulawChunks ++ [p0],
          currentCallerBytes := readySess.currentCallerBytes + p0.length }
      (rest.map (fun f => (f.1, Ev.media f.2)))).oaiSent OaiCmd.commit = 0 := by
    rw [c2, countCmd_append, hcommit0,
        countCmd_appendAudio_map rest OaiCmd.commit (by simp)]
  have hmid3 : countCmd (runSession cfg0
      { readySess with
          oaiSent := readySess.oaiSent ++ [OaiCmd.appendAudio p0],
          hasBufferedAudio := true,
          commitTimer := some (t0 + DEBOUNCE_MS),
          ulawChunks := readySess.ulawChunks ++ [p0],
          currentCallerBytes := readySess.currentCallerBytes + p0.length }
      (rest.map (fun f => (f.1, Ev.media f.2)))).oaiSent OaiCmd.responseCreate = 1 := by
    rw [c2, countCmd_append, hresp1,
        countCmd_appendAudio_map rest OaiCmd.responseCreate (by simp)]
  rw [maybeFire_fire c4 hEnd]
  obtain ⟨f1, -, f3, -⟩ := fireTimer_spec
    { (runSession cfg0
        { readySess with
            oaiSent := readySess.oaiSent ++ [OaiCmd.appendAudio p0],
            hasBufferedAudio := true,
            commitTimer := some (t0 + DEBOUNCE_MS),
            ulawChunks := readySess.ulawChunks ++ [p0],
            currentCallerBytes := readySess.currentCallerBytes + p0.length }
        (rest.map (fun f => (f.1, Ev.media f.2)))) with commitTimer := none }
  refine ⟨?_, hmid2, hmid3, ?_, ?_, ?_⟩
  · rw [c1]
    dsimp only
    decide
  · rw [f1]
    dsimp only
    rw [c1, c3]
    dsimp only
    rw [show readySess.callerTurns = [] from by decide,
        show readySess.currentCallerBytes = 0 from by decide]
    simp only [List.nil_append, Nat.zero_add]
    rw [if_pos hbytes]
  · rw [f3]
    dsimp only
    rw [c5]
    rw [countCmd_append, countCmd_append, hmid2]
    simp [countCmd]
  · rw [f3]
    dsimp only
    rw [c5]
    rw [countCmd_append, countCmd_append, hmid3]
    simp [countCmd]

theorem debounce_turn_boundary_witness :
    (runSession cfg0 readySess (mediaEvs [(0, [1]), (100, [2, 3])])).callerTurns = [] ∧
    countCmd (runSession cfg0 readySess (mediaEvs [(0, [1]), (100, [2, 3])])).oaiSent
      OaiCmd.commit = 0 ∧
    countCmd (runSession cfg0 readySess (mediaEvs [(0, [1]), (100, [2, 3])])).oaiSent
      OaiCmd.responseCreate = 1 ∧
    (runEnd cfg0 readySess (mediaEvs [(0, [1]), (100, [2, 3])]) 700).callerTurns = [3] ∧
    countCmd (runEnd cfg0 readySess (mediaEvs [(0, [1]), (100, [2, 3])]) 700).oaiSent
      OaiCmd.commit = 1 ∧
    countCmd (runEnd cfg0 readySess (mediaEvs [(0, [1]), (100, [2, 3])]) 700).oaiSent
      OaiCmd.responseCreate = 2 := by
  have h := debounce_turn_boundary 0 [1] [(100, [2, 3])] (by decide) (by decide) 700 (by decide)
  simpa [sumLens] using h

/-! ### C9 -/

theorem set_append_len {α : Type} (v : α) :
    ∀ (a c : List α), (a ++ c).set a.length v = a ++ c.set 0 v
  | [], c => rfl
  | x :: xs, c => by
    simp only [List.cons_append, List.length_cons, List.set_cons_succ]
    rw [set_append_len v xs c]

/-- Writing `bs` at the frontier between an already-written prefix and the
zero-filled remainder of a `Buffer.alloc` buffer appends `bs` to the
prefix. -/
theorem writeBytesAt_frontier :
    ∀ (bs pre : List Nat) (m off : Nat), off = pre.length → bs.length ≤ m →
    writeBytesAt (pre ++ List.replicate m 0) off bs
      = (pre ++ bs) ++ List.replicate (m - bs.length) 0
  | [], pre, m, off, hoff, hm => by simp [writeBytesAt]
  | b :: rest, pre, m, off, hoff, hm => by
    cases m with
    | zero => simp at hm
    | succ m2 =>
      rw [writeBytesAt, List.replicate_succ]
      subst hoff
      rw [set_append_len]
      have hset : (0 :: List.replicate m2 0).set 0 b = b :: List.replicate m2 0 := rfl
      rw [hset]
      have hrec := writeBytesAt_frontier rest (pre ++ [b]) m2 (pre.length + 1)
        (by simp) (by simpa using hm)
      calc writeBytesAt (pre ++ b :: List.replicate m2 0) (pre.length + 1) rest
          = writeBytesAt ((pre ++ [b]) ++ List.replicate m2 0) (pre.length + 1) rest := by
            simp
        _ = ((pre ++ [b]) ++ rest) ++ List.replicate (m2 - rest.length) 0 := hrec
        _ = (pre ++ b :: rest) ++ List.replicate (m2 + 1 - (b :: rest).length) 0 := by
            simp [Nat.succ_sub_succ]

theorem i16le_length (v : Int) : (i16le v).length = 2 := rfl

/-- The sample-writing loop at the frontier fills the zero remainder with
the little-endian two's-complement bytes of the samples, in order. -/
theorem writeSamples_frontier :
    ∀ (samples : List Int) (pre : List Nat) (off : Nat), off = pre.length →
    writeSamples (pre ++ List.replicate (samples.length * 2) 0) off samples
      = pre ++ samples.flatMap i16le
  | [], pre, off, hoff => by simp [writeSamples]
  | v :: rest, pre, off, hoff => by
    rw [writeSamples]
    subst hoff
    have hw := writeBytesAt_frontier (i16le v) pre ((v :: rest).length * 2) pre.length rfl
      (by simp only [i16le_length, List.length_cons]; omega)
    rw [hw]
    have hrem : (v :: rest).length * 2 - (i16le v).length = rest.length * 2 := by
      simp only [i16le_length, List.length_cons]
      omega
    rw [hrem]
    have hrec := writeSamples_frontier rest (pre ++ i16le v) (pre.length + 2)
      (by simp [i16le_length])
    rw [hrec]
    simp [List.flatMap_cons]

theorem length_flatMap_i16le (l : List Int) : (l.flatMap i16le).length = l.length * 2 := by
  induction l with
  | nil => simp
  | cons v r ih =>
    simp [List.flatMap_cons, ih, i16le_length]
    omega

/-- C9: `pcm16ToWav` produces exactly a 44-byte RIFF/WAVE header — "RIFF",
RIFF chunk size `36 + 2n`, "WAVEfmt ", fmt-chunk size 16, format tag 1
(PCM), channel count 1, the given sample rate, byte rate `rate * 2`, block
align 2, bits-per-sample 16, "data", data size `2n` (all multi-byte fields
little-endian) — followed by the `n` samples encoded little-endian in
order; the total length is exactly `44 + 2n`. -/
theorem pcm16ToWav_layout (pcm16 : List Int) (rate : Nat) :
    pcm16ToWav pcm16 rate
      = [0x52, 0x49, 0x46, 0x46] ++ u32le (36 + pcm16.length * 2)
        ++ [0x57, 0x41, 0x56, 0x45, 0x66, 0x6D, 0x74, 0x20]
        ++ u32le 16 ++ u16le 1 ++ u16le 1 ++ u32le rate ++ u32le (rate * 2)
        ++ u16le 2 ++ u16le 16 ++ [0x64, 0x61, 0x74, 0x61] ++ u32le (pcm16.length * 2)
        ++ pcm16.flatMap i16le ∧
    (pcm16ToWav pcm16 rate).length = 44 + pcm16.length * 2 := by
  have hmain : pcm16ToWav pcm16 rate
      = ((((((((((((([] : List Nat) ++ [0x52, 0x49, 0x46, 0x46]) ++ u32le (36 + pcm16.length * 2)) ++ [0x57, 0x41, 0x56, 0x45, 0x66, 0x6D, 0x74, 0x20]) ++ u32le 16) ++ u16le 1) ++ u16le 1) ++ u32le rate) ++ u32le (rate * 2)) ++ u16le 2) ++ u16le 16) ++ [0x64, 0x61, 0x74, 0x61]) ++ u32le (pcm16.length * 2)) ++ pcm16.flatMap i16le := by
    unfold pcm16ToWav bufAlloc
    dsimp only
    have e1 : writeBytesAt (([] : List Nat) ++ List.replicate (44 + pcm16.length * 2) 0) 0 ([0x52, 0x49, 0x46, 0x46])
        = (([] : List Nat) ++ [0x52, 0x49, 0x46, 0x46]) ++ List.replicate (40 + pcm16.length * 2) 0 := by
      have h := writeBytesAt_frontier ([0x52, 0x49, 0x46, 0x46]) ([] : List Nat) (44 + pcm16.length * 2) 0
        (by (try simp only [u32le, u16le, List.length_append, List.length_cons, List.length_nil]); try omega) (by (try simp only [u32le, u16le, List.length_append, List.length_cons, List.length_nil]); try omega)
      convert h using 3
      all_goals ((try simp only [u32le, u16le, List.length_append, List.length_cons, List.length_nil]); try omega)
    have e2 : writeBytesAt ((([] : List Nat) ++ [0x52, 0x49, 0x46, 0x46]) ++ List.replicate (40 + pcm16.length * 2) 0) 4 (u32le (36 + pcm16.length * 2))
        = ((([] : List Nat) ++ [0x52, 0x49, 0x46, 0x46]) ++ u32le (36 + pcm16.length * 2)) ++ List.replicate (36 + pcm16.length * 2) 0 := by
      have h := writeBytesAt_frontier (u32le (36 + pcm16.length * 2)) (([] : List Nat) ++ [0x52, 0x49, 0x46, 0x46]) (40 + pcm16.length * 2) 4
        (by (try simp only [u32le, u16le, List.length_append, List.length_cons, List.length_nil]); try omega) (by (try simp only [u32le, u16le, List.length_append, List.length_cons, List.length_nil]); try omega)
      convert h using 3
      all_goals ((try simp only [u32le, u16le, List.length_append, List.length_cons, List.length_nil]); try omega)
    have e3 : writeBytesAt (((([] : List Nat) ++ [0x52, 0x49, 0x46, 0x46]) ++ u32le (36 + pcm16.length * 2)) ++ List.replicate (36 + pcm16.length * 2) 0) 8 ([0x57, 0x41, 0x56, 0x45, 0x66, 0x6D, 0x74, 0x20])
        = (((([] : List Nat) ++ [0x52, 0x49, 0x46, 0x46]) ++ u32le (36 + pcm16.length * 2)) ++ [0x57, 0x41, 0x56, 0x45, 0x66, 0x6D, 0x74, 0x20]) ++ List.replicate (28 + pcm16.length * 2) 0 := by
      have h := writeBytesAt_frontier ([0x57, 0x41, 0x56, 0x45, 0x66, 0x6D, 0x74, 0x20]) ((([] : List Nat) ++ [0x52, 0x49, 0x46, 0x46]) ++ u32le (36 + pcm16.length * 2)) (36 + pcm16.length * 2) 8
        (by (try simp only [u32le, u16le, List.length_append, List.length_cons, List.length_nil]); try omega) (by (try simp only [u32le, u16le, List.length_append, List.length_cons, List.length_nil]); try omega)
      convert h using 3
      all_goals ((try simp only [u32le, u16le, List.length_append, List.length_cons, List.length_nil]); try omega)
    have e4 : writeBytesAt ((((([] : List Nat) ++ [0x52, 0x49, 0x46, 0x46]) ++ u32le (36 + pcm16.length * 2)) ++ [0x57, 0x41, 0x56, 0x45, 0x66, 0x6D, 0x74, 0x20]) ++ List.replicate (28 + pcm16.length * 2) 0) 16 (u32le 16)
        = ((((([] : List Nat) ++ [0x52, 0x49, 0x46, 0x46]) ++ u32le (36 + pcm16.length * 2)) ++ [0x57, 0x41, 0x56, 0x45, 0x66, 0x6D, 0x74, 0x20]) ++ u32le 16) ++ List.replicate (24 + pcm16.length * 2) 0 := by
      have h := writeBytesAt_frontier (u32le 16) (((([] : List Nat) ++ [0x52, 0x49, 0x46, 0x46]) ++ u32le (36 + pcm16.length * 2)) ++ [0x57, 0x41, 0x56, 0x45, 0x66, 0x6D, 0x74, 0x20]) (28 + pcm16.length * 2) 16
        (by (try simp only [u32le, u16le, List.length_append, List.length_cons, List.length_nil]); try omega) (by (try simp only [u32le, u16le, List.length_append, List.length_cons, List.length_nil]); try omega)
      convert h using 3
      all_goals ((try simp only [u32le, u16le, List.length_append, List.length_cons, List.length_nil]); try omega)
    have e5 : writeBytesAt (((((([] : List Nat) ++ [0x52, 0x49, 0x46, 0x46]) ++ u32le (36 + pcm16.length * 2)) ++ [0x57, 0x41, 0x56, 0x45, 0x66, 0x6D, 0x74, 0x20]) ++ u32le 16) ++ List.replicate (24 + pcm16.length * 2) 0) 20 (u16le 1)
        = (((((([] : List Nat) ++ [0x52, 0x49, 0x46, 0x46]) ++ u32le (36 + pcm16.length * 2)) ++ [0x57, 0x41, 0x56, 0x45, 0x66, 0x6D, 0x74, 0x20]) ++ u32le 16) ++ u16le 1) ++ List.replicate (22 + pcm16.length * 2) 0 := by
      have h := writeBytesAt_frontier (u16le 1) ((((([] : List Nat) ++ [0x52, 0x49, 0x46, 0x46]) ++ u32le (36 + pcm16.length * 2)) ++ [0x57, 0x41, 0x56, 0x45, 0x66, 0x6D, 0x74, 0x20]) ++ u32le 16) (24 + pcm16.length * 2) 20
        (by (try simp only [u32le, u16le, List.length_append, List.length_cons, List.length_nil]); try omega) (by (try simp only [u32le, u16le, List.length_append, List.length_cons, List.length_nil]); try omega)
      convert h using 3
      all_goals ((try simp only [u32le, u16le, List.length_append, List.length_cons, List.length_nil]); try omega)
    have e6 : writeBytesAt ((((((([] : List Nat) ++ [0x52, 0x49, 0x46, 0x46]) ++ u32le (36 + pcm16.length * 2)) ++ [0x57, 0x41, 0x56, 0x45, 0x66, 0x6D, 0x74, 0x20]) ++ u32le 16) ++ u16le 1) ++ List.replicate (22 + pcm16.length * 2) 0) 22 (u16le 1)
        = ((((((([] : List Nat) ++ [0x52, 0x49, 0x46, 0x46]) ++ u32le (36 + pcm16.length * 2)) ++ [0x57, 0x41, 0x56, 0x45, 0x66, 0x6D, 0x74, 0x20]) ++ u32le 16) ++ u16le 1) ++ u16le 1) ++ List.replicate (20 + pcm16.length * 2) 0 := by
      have h := writeBytesAt_frontier (u16le 1) (((((([] : List Nat) ++ [0x52, 0x49, 0x46, 0x46]) ++ u32le (36 + pcm16.length * 2)) ++ [0x57, 0x41, 0x56, 0x45, 0x66, 0x6D, 0x74, 0x20]) ++ u32le 16) ++ u16le 1) (22 + pcm16.length * 2) 22
        (by (try simp only [u32le, u16le, List.length_append, List.length_cons, List.length_nil]); try omega) (by (try simp only [u32le, u16le, List.length_append, List.length_cons, List.length_nil]); try omega)
      convert h using 3
      all_goals ((try simp only [u32le, u16le, List.length_append, List.length_cons, List.length_nil]); try omega)
    have e7 : writeBytesAt (((((((([] : List Nat) ++ [0x52, 0x49, 0x46, 0x46]) ++ u32le (36 + pcm16.length * 2)) ++ [0x57, 0x41, 0x56, 0x45, 0x66, 0x6D, 0x74, 0x20]) ++ u32le 16) ++ u16le 1) ++ u16le 1) ++ List.replicate (20 + pcm16.length * 2) 0) 24 (u32le rate)
        = (((((((([] : List Nat) ++ [0x52, 0x49, 0x46, 0x46]) ++ u32le (36 + pcm16.length * 2)) ++ [0x57, 0x41, 0x56, 0x45, 0x66, 0x6D, 0x74, 0x20]) ++ u32le 16) ++ u16le 1) ++ u16le 1) ++ u32le rate) ++ List.replicate (16 + pcm16.length * 2) 0 := by
      have h := writeBytesAt_frontier (u32le rate) ((((((([] : List Nat) ++ [0x52, 0x49, 0x46, 0x46]) ++ u32le (36 + pcm16.length * 2)) ++ [0x57, 0x41, 0x56, 0x45, 0x66, 0x6D, 0x74, 0x20]) ++ u32le 16) ++ u16le 1) ++ u16le 1) (20 + pcm16.length * 2) 24
        (by (try simp only [u32le, u16le, List.length_append, List.length_cons, List.length_nil]); try omega) (by (try simp only [u32le, u16le, List.length_append, List.length_cons, List.length_nil]); try omega)
      convert h using 3
      all_goals ((try simp only [u32le, u16le, List.length_append, List.length_cons, List.length_nil]); try omega)
    have e8 : writeBytesAt ((((((((([] : List Nat) ++ [0x52, 0x49, 0x46, 0x46]) ++ u32le (36 + pcm16.length * 2)) ++ [0x57, 0x41, 0x56, 0x45, 0x66, 0x6D, 0x74, 0x20]) ++ u32le 16) ++ u16le 1) ++ u16le 1) ++ u32le rate) ++ List.replicate (16 + pcm16.length * 2) 0) 28 (u32le (rate * 2))
        = ((((((((([] : List Nat) ++ [0x52, 0x49, 0x46, 0x46]) ++ u32le (36 + pcm16.length * 2)) ++ [0x57, 0x41, 0x56, 0x45, 0x66, 0x6D, 0x74, 0x20]) ++ u32le 16) ++ u16le 1) ++ u16le 1) ++ u32le rate) ++ u32le (rate * 2)) ++ List.replicate (12 + pcm16.length * 2) 0 := by
      have h := writeBytesAt_frontier (u32le (rate * 2)) (((((((([] : List Nat) ++ [0x52, 0x49, 0x46, 0x46]) ++ u32le (36 + pcm16.length * 2)) ++ [0x57, 0x41, 0x56, 0x45, 0x66, 0x6D, 0x74, 0x20]) ++ u32le 16) ++ u16le 1) ++ u16le 1) ++ u32le rate) (16 + pcm16.length * 2) 28
        (by (try simp only [u32le, u16le, List.length_append, List.length_cons, List.length_nil]); try omega) (by (try simp only [u32le, u16le, List.length_append, List.length_cons, List.length_nil]); try omega)
      convert h using 3
      all_goals ((try simp only [u32le, u16le, List.length_append, List.length_cons, List.length_nil]); try omega)
    have e9 : writeBytesAt (((((((((([] : List Nat) ++ [0x52, 0x49, 0x46, 0x46]) ++ u32le (36 + pcm16.length * 2)) ++ [0x57, 0x41, 0x56, 0x45, 0x66, 0x6D, 0x74, 0x20]) ++ u32le 16) ++ u16le 1) ++ u16le 1) ++ u32le rate) ++ u32le (rate * 2)) ++ List.replicate (12 + pcm16.length * 2) 0) 32 (u16le 2)
        = (((((((((([] : List Nat) ++ [0x52, 0x49, 0x46, 0x46]) ++ u32le (36 + pcm16.length * 2)) ++ [0x57, 0x41, 0x56, 0x45, 0x66, 0x6D, 0x74, 0x20]) ++ u32le 16) ++ u16le 1) ++ u16le 1) ++ u32le rate) ++ u32le (rate * 2)) ++ u16le 2) ++ List.replicate (10 + pcm16.length * 2) 0 := by
      have h := writeBytesAt_frontier (u16le 2) ((((((((([] : List Nat) ++ [0x52, 0x49, 0x46, 0x46]) ++ u32le (36 + pcm16.length * 2)) ++ [0x57, 0x41, 0x56, 0x45, 0x66, 0x6D, 0x74, 0x20]) ++ u32le 16) ++ u16le 1) ++ u16le 1) ++ u32le rate) ++ u32le (rate * 2)) (12 + pcm16.length * 2) 32
        (by (try simp only [u32le, u16le, List.length_append, List.length_cons, List.length_nil]); try omega) (by (try simp only [u32le, u16le, List.length_append, List.length_cons, List.length_nil]); try omega)
      convert h using 3
      all_goals ((try simp only [u32le, u16le, List.length_append, List.length_cons, List.length_nil]); try omega)
    have e10 : writeBytesAt ((((((((((([] : List Nat) ++ [0x52, 0x49, 0x46, 0x46]) ++ u32le (36 + pcm16.length * 2)) ++ [0x57, 0x41, 0x56, 0x45, 0x66, 0x6D, 0x74, 0x20]) ++ u32le 16) ++ u16le 1) ++ u16le 1) ++ u32le rate) ++ u32le (rate * 2)) ++ u16le 2) ++ List.replicate (10 + pcm16.length * 2) 0) 34 (u16le 16)
        = ((((((((((([] : List Nat) ++ [0x52, 0x49, 0x46, 0x46]) ++ u32le (36 + pcm16.length * 2)) ++ [0x57, 0x41, 0x56, 0x45, 0x66, 0x6D, 0x74, 0x20]) ++ u32le 16) ++ u16le 1) ++ u16le 1) ++ u32le rate) ++ u32le (rate * 2)) ++ u16le 2) ++ u16le 16) ++ List.replicate (8 + pcm16.length * 2) 0 := by
      have h := writeBytesAt_frontier (u16le 16) (((((((((([] : List Nat) ++ [0x52, 0x49, 0x46, 0x46]) ++ u32le (36 + pcm16.length * 2)) ++ [0x57, 0x41, 0x56, 0x45, 0x66, 0x6D, 0x74, 0x20]) ++ u32le 16) ++ u16le 1) ++ u16le 1) ++ u32le rate) ++ u32le (rate * 2)) ++ u16le 2) (10 + pcm16.length * 2) 34
        (by (try simp only [u32le, u16le, List.length_append, List.length_cons, List.length_nil]); try omega) (by (try simp only [u32le, u16le, List.length_append, List.length_cons, List.length_nil]); try omega)
      convert h using 3
      all_goals ((try simp only [u32le, u16le, List.length_append, List.length_cons, List.length_nil]); try omega)
    have e11 : writeBytesAt (((((((((((([] : List Nat) ++ [0x52, 0x49, 0x46, 0x46]) ++ u32le (36 + pcm16.length * 2)) ++ [0x57, 0x41, 0x56, 0x45, 0x66, 0x6D, 0x74, 0x20]) ++ u32le 16) ++ u16le 1) ++ u16le 1) ++ u32le rate) ++ u32le (rate * 2)) ++ u16le 2) ++ u16le 16) ++ List.replicate (8 + pcm16.length * 2) 0) 36 ([0x64, 0x61, 0x74, 0x61])
        = (((((((((((([] : List Nat) ++ [0x52, 0x49, 0x46, 0x46]) ++ u32le (36 + pcm16.length * 2)) ++ [0x57, 0x41, 0x56, 0x45, 0x66, 0x6D, 0x74, 0x20]) ++ u32le 16) ++ u16le 1) ++ u16le 1) ++ u32le rate) ++ u32le (rate * 2)) ++ u16le 2) ++ u16le 16) ++ [0x64, 0x61, 0x74, 0x61]) ++ List.replicate (4 + pcm16.length * 2) 0 := by
      have h := writeBytesAt_frontier ([0x64, 0x61, 0x74, 0x61]) ((((((((((([] : List Nat) ++ [0x52, 0x49, 0x46, 0x46]) ++ u32le (36 + pcm16.length * 2)) ++ [0x57, 0x41, 0x56, 0x45, 0x66, 0x6D, 0x74, 0x20]) ++ u32le 16) ++ u16le 1) ++ u16le 1) ++ u32le rate) ++ u32le (rate * 2)) ++ u16le 2) ++ u16le 16) (8 + pcm16.length * 2) 36
        (by (try simp only [u32le, u16le, List.length_append, List.length_cons, List.length_nil]); try omega) (by (try simp only [u32le, u16le, List.length_append, List.length_cons, List.length_nil]); try omega)
      convert h using 3
      all_goals ((try simp only [u32le, u16le, List.length_append, List.length_cons, List.length_nil]); try omega)
    have e12 : writeBytesAt ((((((((((((([] : List Nat) ++ [0x52, 0x49, 0x46, 0x46]) ++ u32le (36 + pcm16.length * 2)) ++ [0x57, 0x41, 0x56, 0x45, 0x66, 0x6D, 0x74, 0x20]) ++ u32le 16) ++ u16le 1) ++ u16le 1) ++ u32le rate) ++ u32le (rate * 2)) ++ u16le 2) ++ u16le 16) ++ [0x64, 0x61, 0x74, 0x61]) ++ List.replicate (4 + pcm16.length * 2) 0) 40 (u32le (pcm16.length * 2))
        = ((((((((((((([] : List Nat) ++ [0x52, 0x49, 0x46, 0x46]) ++ u32le (36 + pcm16.length * 2)) ++ [0x57, 0x41, 0x56, 0x45, 0x66, 0x6D, 0x74, 0x20]) ++ u32le 16) ++ u16le 1) ++ u16le 1) ++ u32le rate) ++ u32le (rate * 2)) ++ u16le 2) ++ u16le 16) ++ [0x64, 0x61, 0x74, 0x61]) ++ u32le (pcm16.length * 2)) ++ List.replicate (pcm16.length * 2) 0 := by
      have h := writeBytesAt_frontier (u32le (pcm16.length * 2)) (((((((((((([] : List Nat) ++ [0x52, 0x49, 0x46, 0x46]) ++ u32le (36 + pcm16.length * 2)) ++ [0x57, 0x41, 0x56, 0x45, 0x66, 0x6D, 0x74, 0x20]) ++ u32le 16) ++ u16le 1) ++ u16le 1) ++ u32le rate) ++ u32le (rate * 2)) ++ u16le 2) ++ u16le 16) ++ [0x64, 0x61, 0x74, 0x61]) (4 + pcm16.length * 2) 40
        (by (try simp only [u32le, u16le, List.length_append, List.length_cons, List.length_nil]); try omega) (by (try simp only [u32le, u16le, List.length_append, List.length_cons, List.length_nil]); try omega)
      convert h using 3
      all_goals ((try simp only [u32le, u16le, List.length_append, List.length_cons, List.length_nil]); try omega)
    have e13 := writeSamples_frontier pcm16 ((((((((((((([] : List Nat) ++ [0x52, 0x49, 0x46, 0x46]) ++ u32le (36 + pcm16.length * 2)) ++ [0x57, 0x41, 0x56, 0x45, 0x66, 0x6D, 0x74, 0x20]) ++ u32le 16) ++ u16le 1) ++ u16le 1) ++ u32le rate) ++ u32le (rate * 2)) ++ u16le 2) ++ u16le 16) ++ [0x64, 0x61, 0x74, 0x61]) ++ u32le (pcm16.length * 2)) 44
      (by (try simp only [u32le, u16le, List.length_append, List.length_cons, List.length_nil]); try omega)
    have hstart : List.replicate (44 + pcm16.length * 2) (0 : Nat)
        = ([] : List Nat) ++ List.replicate (44 + pcm16.length * 2) 0 := by simp
    rw [hstart, e1, e2, e3, e4, e5, e6, e7, e8, e9, e10, e11, e12, e13]
  constructor
  · rw [hmain]
    simp [List.append_assoc]
  · rw [hmain]
    simp only [List.length_append, length_flatMap_i16le, u32le, u16le, List.length_cons,
      List.length_nil]
    try omega

/-! ### C7 -/

theorem stopMaterialize_notifications (s : Sess) :
    (stopMaterialize s).notifications = s.notifications := by
  unfold stopMaterialize
  dsimp only
  split_ifs <;> simp

theorem stopMaterialize_callerTurns (s : Sess) :
    (stopMaterialize s).callerTurns
      = s.callerTurns ++ (if 0 < s.currentCallerBytes then [s.currentCallerBytes] else []) := by
  unfold stopMaterialize
  dsimp only
  split_ifs <;> simp_all

/-- C7 (counterexample): a session whose transport sends `stop` twice emits
the final-transcript notification twice — the second `stop` is not a
no-op, and the transcript notification is not emitted at most once. -/
theorem stop_not_idempotent_counterexample :
    (runSession cfg0 initSess
        [(0, Ev.start (some sid0) none), (1, Ev.stop), (2, Ev.stop)]).notifications
      = ["🗣️ Transcript\n".toList, "🗣️ Transcript\n".toList] := by
  decide

/-- C7 (amended): the `stop` handler is unguarded: *every* processed stop
event appends exactly one transcript notification (plus at most one
summary notification), so two stops emit at least two notifications.  Only
the caller-turn materialization part is naturally idempotent (the byte
counter is reset, so a second stop adds no further caller turn). -/
theorem stop_reemits_notifications (cfg : Config) (s : Sess) :
    (stepStop cfg s).notifications
      = s.notifications ++ [stopTranscriptMsg cfg s] ++ stopSummaryMsgs cfg s ∧
    (stepStop cfg s).callerTurns
      = s.callerTurns ++ (if 0 < s.currentCallerBytes then [s.currentCallerBytes] else []) ∧
    s.notifications.length + 2 ≤ (stepStop cfg (stepStop cfg s)).notifications.length := by
  have hnot : ∀ s' : Sess, (stepStop cfg s').notifications
      = s'.notifications ++ [stopTranscriptMsg cfg s'] ++ stopSummaryMsgs cfg s' := by
    intro s'
    unfold stepStop stopTranscriptMsg stopSummaryMsgs
    dsimp only
    split_ifs <;> simp [stopMaterialize_notifications]
  refine ⟨hnot s, ?_, ?_⟩
  · unfold stepStop
    dsimp only
    split_ifs <;> simp [stopMaterialize_callerTurns] <;> omega
  · rw [hnot (stepStop cfg s), hnot s]
    simp [List.length_append]
    omega

/-! ### C6 -/

theorem listsum_map_mul_right {α : Type} (l : List α) (f : α → ℚ) (r : ℚ) :
    (l.map (fun x => f x * r)).sum = (l.map f).sum * r := by
  induction l with
  | nil => simp
  | cons a t ih => simp [ih, add_mul]

theorem listsum_cast (l : List Nat) : ((l.map (fun (b : Nat) => (b : ℚ))).sum) = (l.sum : ℚ) := by
  induction l with
  | nil => simp
  | cons a t ih => simp only [List.map_cons, List.sum_cons, ih, Nat.cast_add]

theorem targetsOf_length (buckets : List Nat) (nSent : Nat) :
    (targetsOf buckets nSent).length = buckets.length := by
  unfold targetsOf
  rw [List.length_map]

theorem targetsOf_nonneg (buckets : List Nat) (nSent : Nat) :
    ∀ x ∈ targetsOf buckets nSent, 0 ≤ x := by
  intro x hx
  simp only [targetsOf, List.mem_map] at hx
  obtain ⟨b, -, rfl⟩ := hx
  exact mul_nonneg (div_nonneg (Nat.cast_nonneg b) (Nat.cast_nonneg _)) (Nat.cast_nonneg _)

theorem targetsOf_sum (buckets : List Nat) (nSent : Nat) (h : buckets.sum ≠ 0) :
    (targetsOf buckets nSent).sum = nSent := by
  unfold targetsOf totalBytesOf
  rw [if_neg h]
  have hT : ((buckets.sum : ℚ)) ≠ 0 := Nat.cast_ne_zero.mpr h
  have hmap : buckets.map (fun (b : Nat) => ((b : ℚ) / (buckets.sum : ℚ)) * (nSent : ℚ))
      = buckets.map (fun (b : Nat) => (b : ℚ) * ((nSent : ℚ) / (buckets.sum : ℚ))) := by
    apply List.map_congr_left
    intro b _
    field_simp
  rw [hmap, listsum_map_mul_right _ (fun (b : Nat) => (b : ℚ)), listsum_cast,
      ← mul_div_assoc, mul_comm, mul_div_assoc, div_self hT, mul_one]

theorem floor_toNat_cast_le {x : ℚ} (hx : 0 ≤ x) : (((⌊x⌋).toNat : ℚ)) ≤ x := by
  have h1 : (0 : ℤ) ≤ ⌊x⌋ := Int.floor_nonneg.mpr hx
  have h2 := Int.floor_le x
  calc (((⌊x⌋).toNat : ℚ)) = (((⌊x⌋ : ℤ) : ℚ)) := by
        rw [← Int.cast_natCast ((⌊x⌋).toNat), Int.toNat_of_nonneg h1]
    _ ≤ x := h2

theorem lt_floor_toNat_add_one {x : ℚ} (hx : 0 ≤ x) : x < ((⌊x⌋).toNat : ℚ) + 1 := by
  have h1 : (0 : ℤ) ≤ ⌊x⌋ := Int.floor_nonneg.mpr hx
  have h2 := Int.lt_floor_add_one x
  have h3 : (((⌊x⌋).toNat : ℚ)) = (((⌊x⌋ : ℤ) : ℚ)) := by
    rw [← Int.cast_natCast ((⌊x⌋).toNat), Int.toNat_of_nonneg h1]
  rw [h3]
  exact_mod_cast h2

theorem baseCountsOf_length (targets : List ℚ) :
    (baseCountsOf targets).length = targets.length := by
  simp [baseCountsOf]

theorem baseCountsOf_sum_le (targets : List ℚ) (h0 : ∀ x ∈ targets, 0 ≤ x) :
    (((baseCountsOf targets).sum : ℚ)) ≤ targets.sum := by
  induction targets with
  | nil => simp [baseCountsOf]
  | cons x t ih =>
    simp only [baseCountsOf, List.map_cons, List.sum_cons] at *
    have hx := floor_toNat_cast_le (h0 x (by simp))
    have ht := ih (fun y hy => h0 y (by simp [hy]))
    push_cast at hx ht ⊢
    linarith

theorem targets_sum_le_base_add_len (targets : List ℚ) (h0 : ∀ x ∈ targets, 0 ≤ x) :
    targets.sum ≤ (((baseCountsOf targets).sum : ℚ)) + targets.length := by
  induction targets with
  | nil => simp [baseCountsOf]
  | cons x t ih =>
    simp only [baseCountsOf, List.map_cons, List.sum_cons, List.length_cons] at *
    have hx := lt_floor_toNat_add_one (h0 x (by simp))
    have ht := ih (fun y hy => h0 y (by simp [hy]))
    push_cast at hx ht ⊢
    linarith

theorem insertByRemainder_perm (x : Nat × ℚ) (l : List (Nat × ℚ)) :
    (insertByRemainder x l).Perm (x :: l) := by
  induction l with
  | nil => exact List.Perm.refl _
  | cons y ys ih =>
    unfold insertByRemainder
    split
    · exact (ih.cons y).trans (List.Perm.swap x y ys)
    · exact List.Perm.refl _

theorem sortByRemainderDesc_perm (l : List (Nat × ℚ)) : (sortByRemainderDesc l).Perm l := by
  suffices h : ∀ (xs acc : List (Nat × ℚ)),
      ((xs.foldl (fun acc x => insertByRemainder x acc) acc)).Perm (acc ++ xs) by
    simpa [sortByRemainderDesc] using h l []
  intro xs
  induction xs with
  | nil => intro acc; simp
  | cons x t ih =>
    intro acc
    simp only [List.foldl_cons]
    refine (ih (insertByRemainder x acc)).trans ?_
    refine ((insertByRemainder_perm x acc).append_right t).trans ?_
    simpa using List.perm_middle.symm

theorem bumpAt_length (cs : List Nat) (i : Nat) : (bumpAt cs i).length = cs.length := by
  simp [bumpAt]

theorem bumpAt_sum (cs : List Nat) (i : Nat) (h : i < cs.length) :
    (bumpAt cs i).sum = cs.sum + 1 := by
  induction cs generalizing i with
  | nil => simp at h
  | cons c t ih =>
    cases i with
    | zero => simp [bumpAt]; omega
    | succ j =>
      have hj : j < t.length := by simpa using h
      simp only [bumpAt, List.getD_cons_succ, List.set_cons_succ, List.sum_cons]
      have := ih j hj
      simp only [bumpAt] at this
      omega

theorem bumpAt_getD (cs : List Nat) (i : Nat) (j : Nat) :
    (bumpAt cs i).getD j 0 = cs.getD j 0 + (if j = i ∧ i < cs.length then 1 else 0) := by
  induction cs generalizing i j with
  | nil => simp [bumpAt]
  | cons c t ih =>
    cases i with
    | zero =>
      cases j with
      | zero => simp [bumpAt]
      | succ j2 => simp [bumpAt]
    | succ i2 =>
      cases j with
      | zero => simp [bumpAt]
      | succ j2 =>
        simp only [bumpAt, List.getD_cons_succ, List.set_cons_succ]
        have := ih i2 j2
        simp only [bumpAt] at this
        rw [this]
        by_cases hji : j2 = i2 ∧ i2 < t.length
        · rw [if_pos hji, if_pos (by simpa using hji)]
        · rw [if_neg hji, if_neg (by simpa using hji)]

theorem applyBumps_length (cs : List Nat) (idxs : List Nat) :
    (applyBumps cs idxs).length = cs.length := by
  induction idxs generalizing cs with
  | nil => rfl
  | cons i t ih =>
    simp only [applyBumps, List.foldl_cons] at *
    rw [ih (bumpAt cs i), bumpAt_length]

theorem applyBumps_sum (cs : List Nat) (idxs : List Nat) (h : ∀ i ∈ idxs, i < cs.length) :
    (applyBumps cs idxs).sum = cs.sum + idxs.length := by
  induction idxs generalizing cs with
  | nil => rfl
  | cons i t ih =>
    simp only [applyBumps, List.foldl_cons] at *
    rw [ih (bumpAt cs i) (fun k hk => by rw [bumpAt_length]; exact h k (by simp [hk])),
        bumpAt_sum cs i (h i (by simp)), List.length_cons]
    omega

theorem applyBumps_getD (cs : List Nat) (idxs : List Nat) (hn : idxs.Nodup)
    (h : ∀ i ∈ idxs, i < cs.length) (j : Nat) :
    (applyBumps cs idxs).getD j 0 = cs.getD j 0 + (if j ∈ idxs then 1 else 0) := by
  induction idxs generalizing cs with
  | nil => simp [applyBumps]
  | cons i t ih =>
    simp only [applyBumps, List.foldl_cons] at *
    rw [ih (bumpAt cs i) hn.of_cons (fun k hk => by rw [bumpAt_length]; exact h k (by simp [hk]))]
    rw [bumpAt_getD]
    by_cases hji : j = i
    · subst hji
      have hnotmem : j ∉ t := by
        intro hmem
        exact (List.nodup_cons.mp hn).1 hmem
      rw [if_neg hnotmem, if_pos ⟨rfl, h j (by simp)⟩, if_pos (by simp)]
    · rw [if_neg (fun hc => hji hc.1)]
      by_cases hjt : j ∈ t
      · rw [if_pos hjt, if_pos (by simp [hjt])]
      · rw [if_neg hjt, if_neg (by simp [hji, hjt])]

theorem getD_map_lt {α β : Type} (f : α → β) (l : List α) (j : Nat) (hj : j < l.length)
    (d : β) (d2 : α) : (l.map f).getD j d = f (l.getD j d2) := by
  induction l generalizing j with
  | nil => simp at hj
  | cons a t ih =>
    cases j with
    | zero => simp
    | succ j2 => simpa using ih j2 (by simpa using hj)

theorem buildOut_length (sents : List Str) :
    ∀ (counts : List Nat) (cursor : Nat), (buildOut sents counts cursor).length = counts.length
  | [], _ => rfl
  | n :: ns, cursor => by
    simp [buildOut, buildOut_length sents ns (cursor + n)]

theorem buildOut_zeros (sents : List Str) (buckets : List Nat) :
    ∀ (cursor : Nat),
      buildOut sents (buckets.map (fun _ => 0)) cursor = buckets.map (fun _ => ([] : Str)) := by
  induction buckets with
  | nil => intro cursor; rfl
  | cons b t ih =>
    intro cursor
    have h1 : jsTrim (joinSpace ((sents.drop cursor).take 0)) = [] := by
      simp [joinSpace, jsTrim, List.intercalate]
    calc buildOut sents ((b :: t).map (fun _ => 0)) cursor
        = jsTrim (joinSpace ((sents.drop cursor).take 0))
            :: buildOut sents (t.map (fun _ => 0)) (cursor + 0) := rfl
      _ = [] :: t.map (fun _ => ([] : Str)) := by rw [h1, ih]

/-- The counts computed by `allocCounts`: as many as there are buckets, in
total at most the sentence count, and — whenever the total byte count is
non-zero — exactly the sentence count, each bucket receiving the floor of
its proportional target or that floor plus one. -/
theorem allocCounts_spec (text : Str) (buckets : List Nat) (hb : ¬ buckets.isEmpty = true) :
    (allocCounts text buckets).length = buckets.length ∧
    (allocCounts text buckets).sum ≤ (sentencesOf text).length ∧
    (buckets.sum ≠ 0 →
      (allocCounts text buckets).sum = (sentencesOf text).length ∧
      ∀ j, j < buckets.length →
        (allocCounts text buckets).getD j 0
            = (⌊(targetsOf buckets (sentencesOf text).length).getD j 0⌋).toNat ∨
        (allocCounts text buckets).getD j 0
            = (⌊(targetsOf buckets (sentencesOf text).length).getD j 0⌋).toNat + 1) := by
  by_cases hs : (sentencesOf text).isEmpty = true
  · have hS : (sentencesOf text).length = 0 := by
      rw [List.isEmpty_iff] at hs
      simp [hs]
    unfold allocCounts
    rw [if_pos (by simp [hs])]
    refine ⟨by simp, by simp, fun hB => ⟨by simp [hS], fun j hj => ?_⟩⟩
    left
    rw [getD_map_lt (fun _ => 0) buckets j hj 0 0]
    unfold targetsOf
    rw [getD_map_lt _ buckets j hj (0 : ℚ) 0]
    simp [hS]
  · unfold allocCounts
    rw [if_neg (by simp [hs, hb])]
    dsimp only
    have hlen_t : (targetsOf buckets (sentencesOf text).length).length = buckets.length :=
      targetsOf_length buckets (sentencesOf text).length
    have hlen_b : (baseCountsOf (targetsOf buckets (sentencesOf text).length)).length
        = buckets.length := by
      rw [baseCountsOf_length, hlen_t]
    have h0 := targetsOf_nonneg buckets (sentencesOf text).length
    have horder_perm :
        (((sortByRemainderDesc (List.enum ((targetsOf buckets (sentencesOf text).length).map
            (fun x => x - (⌊x⌋ : ℚ))))).map Prod.fst)).Perm
          (List.range buckets.length) := by
      have hp := (sortByRemainderDesc_perm (List.enum
        ((targetsOf buckets (sentencesOf text).length).map (fun x => x - (⌊x⌋ : ℚ))))).map Prod.fst
      rw [List.enum_map_fst, List.length_map, hlen_t] at hp
      exact hp
    have horder_len :
        (((sortByRemainderDesc (List.enum ((targetsOf buckets (sentencesOf text).length).map
            (fun x => x - (⌊x⌋ : ℚ))))).map Prod.fst)).length = buckets.length := by
      rw [horder_perm.length_eq, List.length_range]
    have horder_lt : ∀ i ∈ ((sortByRemainderDesc (List.enum
        ((targetsOf buckets (sentencesOf text).length).map
          (fun x => x - (⌊x⌋ : ℚ))))).map Prod.fst), i < buckets.length := by
      intro i hi
      have := horder_perm.mem_iff.mp hi
      exact List.mem_range.mp this
    have horder_nodup : (((sortByRemainderDesc (List.enum
        ((targetsOf buckets (sentencesOf text).length).map
          (fun x => x - (⌊x⌋ : ℚ))))).map Prod.fst)).Nodup :=
      horder_perm.nodup_iff.mpr (List.nodup_range _)
    have hbase_le : (baseCountsOf (targetsOf buckets (sentencesOf text).length)).sum
        ≤ (sentencesOf text).length := by
      have hof := baseCountsOf_sum_le (targetsOf buckets (sentencesOf text).length) h0
      by_cases hB : buckets.sum = 0
      · have hzero : ∀ x ∈ targetsOf buckets (sentencesOf text).length, x = 0 := by
          intro x hx
          simp only [targetsOf, List.mem_map] at hx
          obtain ⟨b, hbmem, rfl⟩ := hx
          have hb0 : b = 0 := (List.sum_eq_zero_iff.mp hB) b hbmem
          simp [hb0]
        have hts : (targetsOf buckets (sentencesOf text).length).sum = 0 :=
          List.sum_eq_zero hzero
        rw [hts] at hof
        have hz : ((baseCountsOf (targetsOf buckets (sentencesOf text).length)).sum : ℚ) = 0 :=
          le_antisymm hof (Nat.cast_nonneg _)
        have hz2 : (baseCountsOf (targetsOf buckets (sentencesOf text).length)).sum = 0 := by
          exact_mod_cast hz
        omega
      · rw [targetsOf_sum buckets (sentencesOf text).length hB] at hof
        exact_mod_cast hof
    constructor
    · rw [applyBumps_length, hlen_b]
    constructor
    · rw [applyBumps_sum]
      · rw [List.length_take]
        omega
      · intro i hi
        rw [hlen_b]
        exact horder_lt i (List.mem_of_mem_take hi)
    · intro hB
      have hdef_le : (sentencesOf text).length
          ≤ (baseCountsOf (targetsOf buckets (sentencesOf text).length)).sum
            + buckets.length := by
        have h2 := targets_sum_le_base_add_len (targetsOf buckets (sentencesOf text).length) h0
        rw [targetsOf_sum buckets (sentencesOf text).length hB, hlen_t] at h2
        exact_mod_cast h2
      have htklen : (((sortByRemainderDesc (List.enum
          ((targetsOf buckets (sentencesOf text).length).map
            (fun x => x - (⌊x⌋ : ℚ))))).map Prod.fst).take
              ((sentencesOf text).length
                - (baseCountsOf (targetsOf buckets (sentencesOf text).length)).sum)).length
          = (sentencesOf text).length
            - (baseCountsOf (targetsOf buckets (sentencesOf text).length)).sum := by
        rw [List.length_take, horder_len]
        omega
      constructor
      · rw [applyBumps_sum, htklen]
        · omega
        · intro i hi
          rw [hlen_b]
          exact horder_lt i (List.mem_of_mem_take hi)
      · intro j hj
        rw [applyBumps_getD]
        · have hbgetD : (baseCountsOf (targetsOf buckets (sentencesOf text).length)).getD j 0
              = (⌊(targetsOf buckets (sentencesOf text).length).getD j 0⌋).toNat := by
            unfold baseCountsOf
            exact getD_map_lt _ _ j (by rw [hlen_t]; exact hj) 0 0
          rw [hbgetD]
          by_cases hmem : j ∈ (((sortByRemainderDesc (List.enum
              ((targetsOf buckets (sentencesOf text).length).map
                (fun x => x - (⌊x⌋ : ℚ))))).map Prod.fst).take
                  ((sentencesOf text).length
                    - (baseCountsOf (targetsOf buckets (sentencesOf text).length)).sum))
          · right
            rw [if_pos hmem]
          · left
            rw [if_neg hmem]
            omega
        · exact horder_nodup.sublist (List.take_sublist _ _)
        · intro i hi
          rw [hlen_b]
          exact horder_lt i (List.mem_of_mem_take hi)

/-- When the total byte count is non-zero the counts sum exactly to the
sentence count, so the leftover branch of `distributeByBytes` does not
trigger and the output is exactly the slice-join loop. -/
theorem distributeByBytes_eq_buildOut (text : Str) (buckets : List Nat)
    (hb : ¬ buckets.isEmpty = true) (hB : buckets.sum ≠ 0) :
    distributeByBytes text buckets
      = buildOut (sentencesOf text) (allocCounts text buckets) 0 := by
  by_cases hs : (sentencesOf text).isEmpty = true
  · unfold distributeByBytes allocCounts
    rw [if_pos (by simp [hs]), if_pos (by simp [hs])]
    exact (buildOut_zeros (sentencesOf text) buckets 0).symm
  · have hsum := ((allocCounts_spec text buckets hb).2.2 hB).1
    unfold distributeByBytes
    rw [if_neg (by simp [hs, hb])]
    dsimp only
    have hcond : ¬ (allocCounts text buckets).sum < (sentencesOf text).length := by
      rw [hsum]
      omega
    rw [if_neg hcond]

/-- C6: given a non-empty bucket list whose byte counts have a positive
sum, `distributeByBytes` returns one text bucket per input bucket; the
per-bucket sentence counts allocated by the pipeline sum exactly to the
number of sentences of the batch transcript, each count being the floor of
the bucket's proportional share or that floor plus one (largest-remainder
rounding), and the output strings are exactly the corresponding
consecutive sentence slices joined by spaces. -/
theorem distributeByBytes_proportional (text : Str) (buckets : List Nat)
    (hb : buckets ≠ []) (hpos : 0 < buckets.sum) :
    (allocCounts text buckets).sum = (sentencesOf text).length ∧
    (allocCounts text buckets).length = buckets.length ∧
    distributeByBytes text buckets
      = buildOut (sentencesOf text) (allocCounts text buckets) 0 ∧
    (distributeByBytes text buckets).length = buckets.length ∧
    (∀ j, j < buckets.length →
      (allocCounts text buckets).getD j 0
          = (⌊(targetsOf buckets (sentencesOf text).length).getD j 0⌋).toNat ∨
      (allocCounts text buckets).getD j 0
          = (⌊(targetsOf buckets (sentencesOf text).length).getD j 0⌋).toNat + 1) := by
  have hbe : ¬ buckets.isEmpty = true := by
    simpa [List.isEmpty_iff] using hb
  have hB : buckets.sum ≠ 0 := by omega
  obtain ⟨hlen, hle, hrest⟩ := allocCounts_spec text buckets hbe
  obtain ⟨hsum, hdisj⟩ := hrest hB
  have heq := distributeByBytes_eq_buildOut text buckets hbe hB
  exact ⟨hsum, hlen, heq, by rw [heq, buildOut_length, hlen], hdisj⟩

theorem distributeByBytes_proportional_witness :
    (allocCounts "A. B. C. D.".toList [3, 1]).sum
        = (sentencesOf "A. B. C. D.".toList).length ∧
    (allocCounts "A. B. C. D.".toList [3, 1]).length = 2 ∧
    distributeByBytes "A. B. C. D.".toList [3, 1]
      = buildOut (sentencesOf "A. B. C. D.".toList) (allocCounts "A. B. C. D.".toList [3, 1]) 0 ∧
    (distributeByBytes "A. B. C. D.".toList [3, 1]).length = 2 ∧
    (∀ j, j < 2 →
      (allocCounts "A. B. C. D.".toList [3, 1]).getD j 0
          = (⌊(targetsOf [3, 1] (sentencesOf "A. B. C. D.".toList).length).getD j 0⌋).toNat ∨
      (allocCounts "A. B. C. D.".toList [3, 1]).getD j 0
          = (⌊(targetsOf [3, 1] (sentencesOf "A. B. C. D.".toList).length).getD j 0⌋).toNat + 1) :=
  distributeByBytes_proportional "A. B. C. D.".toList [3, 1] (by decide) (by decide)

/-! ### C10 -/

/-- Consecutive slices of the given sizes. -/
def chunksBySizes {α : Type} : List α → List Nat → List (List α)
  | _, [] => []
  | l, n :: ns => l.take n :: chunksBySizes (l.drop n) ns

/-- Add `k` to the last entry (identity on the empty list). -/
def extendLast (k : Nat) : List Nat → List Nat
  | [] => []
  | [n] => [n + k]
  | n :: m :: ns => n :: extendLast k (m :: ns)

/-- The per-bucket sentence counts of `distributeByBytes` with the
leftover sentences (a case reachable only when every bucket reports zero
bytes) attributed to the last bucket, exactly as the leftover append does. -/
def finalCounts (text : Str) (buckets : List Nat) : List Nat :=
  extendLast ((sentencesOf text).length - (allocCounts text buckets).sum)
    (allocCounts text buckets)

theorem extendLast_length (k : Nat) : ∀ l : List Nat, (extendLast k l).length = l.length
  | [] => rfl
  | [_] => rfl
  | n :: m :: ns => by simp [extendLast, extendLast_length k (m :: ns)]

theorem extendLast_sum (k : Nat) : ∀ l : List Nat, l ≠ [] → (extendLast k l).sum = l.sum + k
  | [], h => absurd rfl h
  | [n], _ => by simp [extendLast]
  | n :: m :: ns, _ => by
    simp [extendLast, extendLast_sum k (m :: ns) (by simp)]
    omega

theorem extendLast_zero : ∀ l : List Nat, extendLast 0 l = l
  | [] => rfl
  | [n] => by simp [extendLast]
  | n :: m :: ns => by simp [extendLast, extendLast_zero (m :: ns)]

theorem chunksBySizes_nil {α : Type} :
    ∀ ns : List Nat, chunksBySizes ([] : List α) ns = ns.map (fun _ => [])
  | [] => rfl
  | n :: ns => by simp [chunksBySizes, chunksBySizes_nil ns]

theorem chunksBySizes_flatten {α : Type} : ∀ (ns : List Nat) (l : List α),
    (chunksBySizes l ns).flatten = l.take ns.sum
  | [], l => by simp [chunksBySizes]
  | n :: ns, l => by
    simp only [chunksBySizes, List.flatten_cons, chunksBySizes_flatten ns (l.drop n),
      List.sum_cons]
    exact (List.take_add l n ns.sum).symm

theorem head?_dropWhile_not (p : Char → Bool) :
    ∀ l : Str, ∀ c ∈ (l.dropWhile p).head?, p c = false
  | [], c, hc => by simp at hc
  | a :: t, c, hc => by
    rw [List.dropWhile_cons] at hc
    by_cases hp : p a = true
    · rw [if_pos hp] at hc
      exact head?_dropWhile_not p t c hc
    · rw [if_neg hp] at hc
      simp only [List.head?_cons, Option.mem_def, Option.some.injEq] at hc
      subst hc
      simpa using hp

theorem dropWhile_eq_self (p : Char → Bool) (l : Str) (h : ∀ c ∈ l.head?, p c = false) :
    l.dropWhile p = l := by
  cases l with
  | nil => rfl
  | cons a t =>
    rw [List.dropWhile_cons, if_neg]
    simp [h a (by simp)]

theorem getLast?_dropWhile (p : Char → Bool) : ∀ l : Str, (l.dropWhile p) ≠ [] →
    (l.dropWhile p).getLast? = l.getLast?
  | [], h => absurd rfl h
  | a :: t, h => by
    rw [List.dropWhile_cons] at h ⊢
    by_cases hp : p a = true
    · rw [if_pos hp] at h ⊢
      cases t with
      | nil => exact absurd rfl h
      | cons b t2 =>
        rw [List.getLast?_cons_cons]
        exact getLast?_dropWhile p (b :: t2) h
    · rw [if_neg hp]

/-- A string with no leading and no trailing whitespace — the shape of
every string `jsTrim` produces, hence of every sentence. -/
def trimmedStr (x : Str) : Prop :=
    (∀ c ∈ x.head?, isWS c = false) ∧ (∀ c ∈ x.getLast?, isWS c = false)

theorem jsTrim_trimmedStr (y : Str) : trimmedStr (jsTrim y) := by
  constructor
  · intro c hc
    unfold jsTrim at hc
    rw [List.head?_reverse] at hc
    have hne : ((y.dropWhile isWS).reverse.dropWhile isWS) ≠ [] := by
      intro he
      rw [he] at hc
      simp at hc
    rw [getLast?_dropWhile isWS _ hne, List.getLast?_reverse] at hc
    exact head?_dropWhile_not isWS y c hc
  · intro c hc
    unfold jsTrim at hc
    rw [List.getLast?_reverse] at hc
    exact head?_dropWhile_not isWS _ c hc

theorem jsTrim_eq_self (x : Str) (h : trimmedStr x) : jsTrim x = x := by
  unfold jsTrim
  rw [dropWhile_eq_self isWS x h.1,
      dropWhile_eq_self isWS x.reverse (by
        intro c hc
        rw [List.head?_reverse] at hc
        exact h.2 c hc)]
  exact List.reverse_reverse x

theorem sentencesOf_trimmedStr (text : Str) :
    ∀ x ∈ sentencesOf text, trimmedStr x ∧ x ≠ [] := by
  intro x hx
  unfold sentencesOf splitIntoSentences at hx
  dsimp only at hx
  by_cases he : (jsTrim (replaceNewlines text)).isEmpty = true
  · rw [if_pos he] at hx
    simp at hx
  · rw [if_neg he] at hx
    rw [List.mem_filter] at hx
    obtain ⟨hmem, hne⟩ := hx
    rw [List.mem_map] at hmem
    obtain ⟨y, -, rfl⟩ := hmem
    refine ⟨jsTrim_trimmedStr y, ?_⟩
    simpa [List.isEmpty_iff] using hne

theorem joinSpace_nil : joinSpace [] = [] := by simp [joinSpace, List.intercalate]

theorem joinSpace_single (a : Str) : joinSpace [a] = a := by simp [joinSpace, List.intercalate]

theorem joinSpace_cons_cons (a b : Str) (t : List Str) :
    joinSpace (a :: b :: t) = a ++ ' ' :: joinSpace (b :: t) := by
  simp [joinSpace, List.intercalate, List.intersperse]

theorem joinSpace_head? (a : Str) (t : List Str) (ha : a ≠ []) :
    (joinSpace (a :: t)).head? = a.head? := by
  cases t with
  | nil => rw [joinSpace_single]
  | cons b t2 =>
    rw [joinSpace_cons_cons]
    cases a with
    | nil => exact absurd rfl ha
    | cons c r => rfl

theorem joinSpace_trimmedStr : ∀ l : List Str, (∀ x ∈ l, trimmedStr x ∧ x ≠ []) →
    trimmedStr (joinSpace l) ∧ (l ≠ [] → joinSpace l ≠ [])
  | [], _ => by
    rw [joinSpace_nil]
    exact ⟨⟨by simp, by simp⟩, fun h => absurd rfl h⟩
  | a :: t, hg => by
    obtain ⟨hat, hane⟩ := hg a (by simp)
    have hhead : (joinSpace (a :: t)).head? = a.head? := joinSpace_head? a t hane
    have hne : joinSpace (a :: t) ≠ [] := by
      intro he
      rw [he] at hhead
      cases a with
      | nil => exact hane rfl
      | cons c r => simp at hhead
    refine ⟨⟨?_, ?_⟩, fun _ => hne⟩
    · intro c hc
      rw [hhead] at hc
      exact hat.1 c hc
    · cases t with
      | nil =>
        rw [joinSpace_single]
        exact hat.2
      | cons b t2 =>
        intro c hc
        obtain ⟨⟨-, hlast⟩, hne2⟩ :=
          joinSpace_trimmedStr (b :: t2) (fun x hx => hg x (by simp [hx]))
        have hjs := hne2 (by simp)
        rw [joinSpace_cons_cons,
            List.getLast?_append_of_ne_nil _ (by simp : (' ' :: joinSpace (b :: t2)) ≠ [])]
          at hc
        have hcc : c ∈ (joinSpace (b :: t2)).getLast? := by
          rcases hjs2 : joinSpace (b :: t2) with _ | ⟨d, r⟩
          · exact absurd hjs2 hjs
          · rw [hjs2, List.getLast?_cons_cons] at hc
            exact hc
        exact hlast c hcc

theorem jsTrim_joinSpace (l : List Str) (hg : ∀ x ∈ l, trimmedStr x ∧ x ≠ []) :
    jsTrim (joinSpace l) = joinSpace l :=
  jsTrim_eq_self _ (joinSpace_trimmedStr l hg).1

theorem joinSpace_append : ∀ (a b : List Str), a ≠ [] → b ≠ [] →
    joinSpace (a ++ b) = joinSpace a ++ ' ' :: joinSpace b
  | [], _, ha, _ => absurd rfl ha
  | [x], b, _, hb => by
    cases b with
    | nil => exact absurd rfl hb
    | cons y t => rw [List.singleton_append, joinSpace_cons_cons, joinSpace_single]
  | x :: y :: t, b, _, hb => by
    have ih := joinSpace_append (y :: t) b (by simp) hb
    have h1 : (x :: y :: t) ++ b = x :: ((y :: t) ++ b) := rfl
    rw [h1]
    have h2 : (y :: t) ++ b = y :: (t ++ b) := rfl
    rw [h2, joinSpace_cons_cons, ← h2, ih, joinSpace_cons_cons]
    simp

theorem chunksBySizes_length {α : Type} :
    ∀ (ns : List Nat) (l : List α), (chunksBySizes l ns).length = ns.length
  | [], _ => rfl
  | n :: ns, l => by simp [chunksBySizes, chunksBySizes_length ns (l.drop n)]

theorem map_const_len {α β γ : Type} (c : γ) :
    ∀ (l1 : List α) (l2 : List β), l1.length = l2.length →
      l1.map (fun _ => c) = l2.map (fun _ => c)
  | [], [], _ => rfl
  | [], _ :: _, h => by simp at h
  | _ :: _, [], h => by simp at h
  | _ :: t1, _ :: t2, h => by simp [map_const_len c t1 t2 (by simpa using h)]

theorem buildOut_cons (sents : List Str) (n : Nat) (ns : List Nat) (c : Nat) :
    buildOut sents (n :: ns) c
      = jsTrim (joinSpace ((sents.drop c).take n)) :: buildOut sents ns (c + n) := rfl

theorem appendLeftover_single (x e : Str) :
    appendLeftover [x] e = [if x.isEmpty then e else x ++ ' ' :: e] := rfl

theorem appendLeftover_cons_cons (x y : Str) (xs : List Str) (e : Str) :
    appendLeftover (x :: y :: xs) e = x :: appendLeftover (y :: xs) e := rfl

/-- The slice-join loop is the map of trim-of-join over the consecutive
chunks of the sentence list from the cursor. -/
theorem buildOut_eq_chunks (sents : List Str) :
    ∀ (counts : List Nat) (cursor : Nat),
      buildOut sents counts cursor
        = (chunksBySizes (sents.drop cursor) counts).map (fun l => jsTrim (joinSpace l))
  | [], _ => rfl
  | n :: ns, cursor => by
    rw [buildOut_cons]
    simp only [chunksBySizes, List.map_cons, List.drop_drop]
    rw [buildOut_eq_chunks sents ns (cursor + n)]

/-- The leftover append of `distributeByBytes` turns the slice-join output
for `counts` into the slice-join output for `counts` with the leftover
sentence count added to the last entry, provided every sentence is a
non-empty trimmed string (which `splitIntoSentences` guarantees). -/
theorem appendLeftover_buildOut (sents : List Str)
    (hg : ∀ x ∈ sents, trimmedStr x ∧ x ≠ []) :
    ∀ (counts : List Nat) (cursor : Nat), counts ≠ [] →
      cursor + counts.sum < sents.length →
      appendLeftover (buildOut sents counts cursor)
          (joinSpace (sents.drop (cursor + counts.sum)))
        = buildOut sents (extendLast (sents.length - (cursor + counts.sum)) counts) cursor
  | [], _, h, _ => absurd rfl h
  | [n], cursor, _, hlt => by
    simp only [List.sum_cons, List.sum_nil, Nat.add_zero] at hlt ⊢
    have hdd : (sents.drop cursor).drop n = sents.drop (cursor + n) := by
      rw [List.drop_drop, Nat.add_comm]
    have hAB : (sents.drop cursor).take n ++ sents.drop (cursor + n) = sents.drop cursor := by
      rw [← hdd]
      exact List.take_append_drop n (sents.drop cursor)
    have hBne : sents.drop (cursor + n) ≠ [] := by
      intro h
      have := List.length_drop (cursor + n) sents
      rw [h] at this
      simp at this
      omega
    have hgB : ∀ x ∈ sents.drop (cursor + n), trimmedStr x ∧ x ≠ [] :=
      fun x hx => hg x (List.mem_of_mem_drop hx)
    have hgA : ∀ x ∈ (sents.drop cursor).take n, trimmedStr x ∧ x ≠ [] :=
      fun x hx => hg x (List.mem_of_mem_drop (List.mem_of_mem_take hx))
    have htake : (sents.drop cursor).take (n + (sents.length - (cursor + n)))
        = sents.drop cursor := by
      apply List.take_of_length_le
      rw [List.length_drop]
      omega
    rw [show buildOut sents [n] cursor
        = [jsTrim (joinSpace ((sents.drop cursor).take n))] from rfl]
    rw [show extendLast (sents.length - (cursor + n)) [n]
        = [n + (sents.length - (cursor + n))] from rfl]
    rw [show buildOut sents [n + (sents.length - (cursor + n))] cursor
        = [jsTrim (joinSpace ((sents.drop cursor).take (n + (sents.length - (cursor + n)))))]
        from rfl]
    rw [htake, appendLeftover_single]
    by_cases hA : (sents.drop cursor).take n = []
    · rw [hA] at hAB
      rw [List.nil_append] at hAB
      rw [hA]
      rw [show jsTrim (joinSpace ([] : List Str)) = [] from by decide]
      rw [if_pos (show (List.isEmpty ([] : Str)) = true from rfl)]
      rw [← hAB, jsTrim_joinSpace _ hgB]
    · have hgD : ∀ x ∈ sents.drop cursor, trimmedStr x ∧ x ≠ [] :=
        fun x hx => hg x (List.mem_of_mem_drop hx)
      have hjA := jsTrim_joinSpace _ hgA
      have hjAne : joinSpace ((sents.drop cursor).take n) ≠ [] :=
        (joinSpace_trimmedStr _ hgA).2 hA
      have hR : jsTrim (joinSpace (sents.drop cursor))
          = joinSpace ((sents.drop cursor).take n)
              ++ ' ' :: joinSpace (sents.drop (cursor + n)) := by
        conv_lhs => rw [jsTrim_joinSpace _ hgD, ← hAB]
        rw [joinSpace_append _ _ hA hBne]
      rw [hjA]
      rw [if_neg (by simpa [List.isEmpty_iff] using hjAne)]
      rw [hR]
  | n :: m :: ns, cursor, _, hlt => by
    have hidx : cursor + (n :: m :: ns).sum = (cursor + n) + (m :: ns).sum := by
      simp only [List.sum_cons]
      omega
    have ih := appendLeftover_buildOut sents hg (m :: ns) (cursor + n) (by simp)
      (by rw [← hidx]; exact hlt)
    rw [hidx]
    rw [buildOut_cons]
    rw [buildOut_cons sents m ns (cursor + n)]
    rw [appendLeftover_cons_cons]
    rw [← buildOut_cons sents m ns (cursor + n)]
    rw [ih]
    rw [show extendLast (sents.length - ((cursor + n) + (m :: ns).sum)) (n :: m :: ns)
        = n :: extendLast (sents.length - ((cursor + n) + (m :: ns).sum)) (m :: ns) from rfl]
    rw [buildOut_cons]

/-- C10 counterexample: the claim's parenthetical resplit property fails.
For text `". . ."` and the single bucket `[1]` the pipeline finds the two
sentences `"."` and `"."` (the regex `[^.!?\n]+[.!?]?` needs a non-punctuation
character to start a match, so each match is `" ."`, trimmed to `"."`), and
the single output bucket is their space-join `". ."`; splitting that output
back into sentences yields only one sentence `"."`, not the original two, so
concatenating the buckets and re-splitting does not recover the input's
sentence list. -/
theorem distributeByBytes_resplit_counterexample :
    distributeByBytes (String.toList ". . .") [1] = [String.toList ". ."] ∧
    sentencesOf (String.toList ". . .") = [String.toList ".", String.toList "."] ∧
    splitIntoSentences (String.toList ". .") = [String.toList "."] := by
  refine ⟨?_, by decide, by decide⟩
  obtain ⟨hlen, -, hrest⟩ := allocCounts_spec (String.toList ". . .") [1] (by decide)
  obtain ⟨hsum, -⟩ := hrest (by decide)
  have hs : sentencesOf (String.toList ". . .") = [['.'], ['.']] := by decide
  have hA : allocCounts (String.toList ". . .") [1] = [2] := by
    rcases hAe : allocCounts (String.toList ". . .") [1] with _ | ⟨c, rest⟩
    · rw [hAe] at hlen
      simp at hlen
    · rcases rest with _ | ⟨d, rest2⟩
      · rw [hAe] at hsum
        rw [hs] at hsum
        simp at hsum
        rw [hsum]
      · rw [hAe] at hlen
        simp at hlen
  have hE := distributeByBytes_eq_buildOut (String.toList ". . .") [1] (by decide) (by decide)
  rw [hE, hA, hs]
  decide

/-- C10 (amended): for every text and non-empty bucket list,
`distributeByBytes` returns exactly one string per bucket, and the
pipeline's sentence list is partitioned into consecutive chunks — one per
bucket, sizes `finalCounts` (the allocated counts with any leftover
absorbed into the last bucket), summing exactly to the sentence count and
flattening back to the sentence list, so no sentence is lost, duplicated
or reordered — whose trimmed space-joins are exactly the returned strings;
when the text has no sentences the result is one empty string per
bucket. (The claim's stronger parenthetical — that re-splitting the
concatenated buckets recovers the sentence list — is refuted separately.) -/
theorem distributeByBytes_chunk_decomposition (text : Str) (buckets : List Nat)
    (hb : buckets ≠ []) :
    (finalCounts text buckets).length = buckets.length ∧
    (finalCounts text buckets).sum = (sentencesOf text).length ∧
    (chunksBySizes (sentencesOf text) (finalCounts text buckets)).flatten
      = sentencesOf text ∧
    distributeByBytes text buckets
      = (chunksBySizes (sentencesOf text) (finalCounts text buckets)).map
          (fun l => jsTrim (joinSpace l)) ∧
    (distributeByBytes text buckets).length = buckets.length ∧
    (sentencesOf text = [] → distributeByBytes text buckets = buckets.map (fun _ => [])) := by
  have hbe : ¬ buckets.isEmpty = true := by simpa [List.isEmpty_iff] using hb
  obtain ⟨hlen, hle, -⟩ := allocCounts_spec text buckets hbe
  have hCne : allocCounts text buckets ≠ [] := by
    intro h
    rw [h] at hlen
    simp at hlen
    exact hb (List.length_eq_zero.mp hlen.symm)
  have hflen : (finalCounts text buckets).length = buckets.length := by
    unfold finalCounts
    rw [extendLast_length, hlen]
  have hfsum : (finalCounts text buckets).sum = (sentencesOf text).length := by
    unfold finalCounts
    rw [extendLast_sum _ _ hCne]
    omega
  have hflat : (chunksBySizes (sentencesOf text) (finalCounts text buckets)).flatten
      = sentencesOf text := by
    rw [chunksBySizes_flatten, hfsum]
    exact List.take_length _
  have hmain : distributeByBytes text buckets
      = (chunksBySizes (sentencesOf text) (finalCounts text buckets)).map
          (fun l => jsTrim (joinSpace l)) := by
    by_cases hs : (sentencesOf text).isEmpty = true
    · have hsnil : sentencesOf text = [] := List.isEmpty_iff.mp hs
      unfold distributeByBytes
      rw [if_pos (by simp [hs])]
      rw [hsnil, chunksBySizes_nil, List.map_map]
      have hjt : (fun l => jsTrim (joinSpace l)) ∘ (fun _ : Nat => ([] : List Str))
          = (fun _ : Nat => ([] : Str)) := by
        funext x
        show jsTrim (joinSpace []) = []
        decide
      rw [hjt]
      exact map_const_len ([] : Str) buckets (finalCounts text buckets) hflen.symm
    · by_cases hlt : (allocCounts text buckets).sum < (sentencesOf text).length
      · have hg := sentencesOf_trimmedStr text
        unfold distributeByBytes
        rw [if_neg (by simp [hs, hbe])]
        dsimp only
        rw [if_pos hlt]
        have hml := appendLeftover_buildOut (sentencesOf text) hg
          (allocCounts text buckets) 0 hCne (by omega)
        simp only [Nat.zero_add] at hml
        rw [hml]
        rw [show extendLast ((sentencesOf text).length - (allocCounts text buckets).sum)
              (allocCounts text buckets) = finalCounts text buckets from rfl]
        rw [buildOut_eq_chunks, List.drop_zero]
      · unfold distributeByBytes
        rw [if_neg (by simp [hs, hbe])]
        dsimp only
        rw [if_neg hlt]
        have hfc : finalCounts text buckets = allocCounts text buckets := by
          unfold finalCounts
          have hsum : (sentencesOf text).length - (allocCounts text buckets).sum = 0 := by
            omega
          rw [hsum, extendLast_zero]
        rw [hfc, buildOut_eq_chunks, List.drop_zero]
  have hdlen : (distributeByBytes text buckets).length = buckets.length := by
    rw [hmain, List.length_map, chunksBySizes_length, hflen]
  have hempty : sentencesOf text = []
      → distributeByBytes text buckets = buckets.map (fun _ => []) := by
    intro hsnil
    unfold distributeByBytes
    rw [if_pos (by simp [hsnil])]
  exact ⟨hflen, hfsum, hflat, hmain, hdlen, hempty⟩

theorem distributeByBytes_chunk_decomposition_witness :
    ([1, 2] : List Nat) ≠ [] ∧
    ((finalCounts ([] : Str) [1, 2]).length = ([1, 2] : List Nat).length ∧
     (finalCounts ([] : Str) [1, 2]).sum = (sentencesOf ([] : Str)).length ∧
     (chunksBySizes (sentencesOf ([] : Str)) (finalCounts ([] : Str) [1, 2])).flatten
       = sentencesOf ([] : Str) ∧
     distributeByBytes ([] : Str) [1, 2]
       = (chunksBySizes (sentencesOf ([] : Str)) (finalCounts ([] : Str) [1, 2])).map
           (fun l => jsTrim (joinSpace l)) ∧
     (distributeByBytes ([] : Str) [1, 2]).length = ([1, 2] : List Nat).length ∧
     (sentencesOf ([] : Str) = []
       → distributeByBytes ([] : Str) [1, 2] = ([1, 2] : List Nat).map (fun _ => []))) :=
  ⟨by decide, distributeByBytes_chunk_decomposition ([] : Str) [1, 2] (by decide)⟩

end RelayBot
